import Mathlib

/-!
# Verification of the gdrivekit export engine

A shallow embedding, in Lean 4, of the conversion-and-annotation engine and
batch orchestrator of the `gdrivekit` repository, together with theorems
settling the specification claims about it.

Documents are modelled as lists of characters, binary blobs as lists of
bytes (natural numbers), and the filesystem / network collaborators as
explicit state values or function parameters.  Every definition mirrors a
specific Python function of the repository, named in its doc comment.
-/

namespace GDriveKit

/-! ## Generic substring search

`re.sub(re.escape(snippet), ..., count=1)` on an escaped pattern is plain
leftmost-substring search followed by a single splice.  We model the search
and the splice over `List Char`.
-/

/-- Index of the first (leftmost) occurrence of `pat` in `hay`, if any.
Mirrors Python's leftmost-match semantics of `re.sub(..., count=1)` with an
escaped (literal) pattern. -/
def findSub : List Char → List Char → Option Nat
  | hay, pat =>
    if pat.isPrefixOf hay then some 0
    else
      match hay with
      | [] => none
      | _ :: t => (findSub t pat).map (· + 1)

/-- Number of (starting positions of) occurrences of `pat` in `hay`. -/
def countSub (hay pat : List Char) : Nat :=
  (List.range (hay.length + 1)).countP (fun j => pat.isPrefixOf (hay.drop j))

/-- Splice `ins` into `hay` immediately after the first occurrence of `pat`;
`hay` unchanged when `pat` does not occur.  This is the effect of
`re.sub(f'({re.escape(pat)})', r'\1<ins>', hay, count=1)`. -/
def insertAfterFirst (hay pat ins : List Char) : List Char :=
  match findSub hay pat with
  | none => hay
  | some i => hay.take (i + pat.length) ++ ins ++ hay.drop (i + pat.length)

/-! ## Google Docs converters (`gdrivekit/export/docs/converters.py`) -/

namespace GDocs

/-- A reply dictionary as produced by `DriveClient.get_comments`. -/
structure ReplyDoc where
  author : List Char
  createdTime : List Char
  content : List Char
deriving DecidableEq, Repr

/-- A comment dictionary as consumed by the docs converters: the fields
`snippet`, `author`, `createdTime`, `content` and `replies` that
`add_comment_markers_to_markdown` and `add_comment_section` read. -/
structure CommentDoc where
  snippet : List Char
  author : List Char
  createdTime : List Char
  content : List Char
  replies : List ReplyDoc
deriving DecidableEq, Repr

/-- The inline marker text `[n]` inserted after a matched snippet. -/
def marker (n : Nat) : List Char :=
  '[' :: (Nat.repr n).toList ++ [']']

/-- One iteration of the marker loop of `add_comment_markers_to_markdown`:
`if snippet: markdown_content = re.sub(f'({pattern})', f'\\1[{comment_num}]',
markdown_content, count=1)`. -/
def markOnce (md : List Char) (n : Nat) (s : List Char) : List Char :=
  if s = [] then md else insertAfterFirst md s (marker n)

/-- The index at which the marker for snippet `s` is spliced into `md`
(`none` when the snippet is empty or not found, in which case the `re.sub`
call leaves the content unchanged). -/
def markIndex (md : List Char) (s : List Char) : Option Nat :=
  if s = [] then none else findSub md s

/-- The marker-insertion loop of `add_comment_markers_to_markdown`, over the
pending list of `(comment_number, snippet)` pairs, instrumented to also
record, for each processed comment, the splice index used (or `none`). -/
def addMarkersAux : List Char → List (Nat × List Char) →
    List Char × List (Nat × Option Nat)
  | md, [] => (md, [])
  | md, (n, s) :: rest =>
    let res := addMarkersAux (markOnce md n s) rest
    (res.1, (n, markIndex md s) :: res.2)

/-- The pending list processed by `add_comment_markers_to_markdown`: the
first `min numAnchors N` comments (`top_level_anchors = sorted_anchors[:N]`
then `enumerate`), numbered by 1-based input position, paired with their
snippets. -/
def pendingOf (comments : List CommentDoc) (numAnchors : Nat) :
    List (Nat × List Char) :=
  ((comments.take numAnchors).map (·.snippet)).enumFrom 1

/-- `add_comment_markers_to_markdown(markdown_content, html_content,
comments)`.  The HTML argument is used by the source only to count the
`cmnt_ref<i>` anchors (`len(sorted_anchors)`); that count enters the model
as `numAnchors`. -/
def addCommentMarkersToMarkdown (md : List Char) (numAnchors : Nat)
    (comments : List CommentDoc) : List Char :=
  if comments.isEmpty then md
  else (addMarkersAux md (pendingOf comments numAnchors)).1

/-- `True` when every pending snippet is non-empty and found in the content
as it stands when that snippet is processed (earlier insertions included). -/
def allMarkersFound : List Char → List (Nat × List Char) → Bool
  | _, [] => true
  | md, (n, s) :: rest =>
    (markIndex md s).isSome && allMarkersFound (markOnce md n s) rest

/-- The entry header line `### [n]` appended by `add_comment_section`. -/
def headerLine (n : Nat) : List Char :=
  "### [".toList ++ (Nat.repr n).toList ++ [']']

/-- The lines appended for one comment by the loop body of
`add_comment_section` (header, blank, body line, blank, reply lines, and a
trailing blank when there are replies). -/
def commentEntryLines (n : Nat) (c : CommentDoc) : List (List Char) :=
  headerLine n :: [] ::
    ('[' :: c.createdTime ++ "] ".toList ++ c.author ++ ": ".toList ++
      c.content) :: [] ::
    (c.replies.map (fun r =>
      "  - [".toList ++ r.createdTime ++ "] ".toList ++ r.author ++
        ": ".toList ++ r.content)) ++
    (if c.replies.isEmpty then [] else [[]])

/-- The `lines` list built by `add_comment_section`: the fixed header
followed by the per-comment entries in input order, numbered from 1. -/
def sectionLines : Nat → List CommentDoc → List (List Char)
  | _, [] => []
  | n, c :: cs => commentEntryLines n c ++ sectionLines (n + 1) cs

/-- `add_comment_section(markdown_content, comments)`: appends
`'\n'.join(lines)` for the header plus one numbered entry per input
comment; returns the content unchanged when there are no comments. -/
def addCommentSection (md : List Char) (comments : List CommentDoc) :
    List Char :=
  if comments.isEmpty then md
  else
    md ++ (List.intercalate ['\n']
      ([[], "---".toList, [], "Comments:".toList, []] ++
        sectionLines 1 comments))

/-- Number of inline markers actually spliced in by the marker loop. -/
def insertedCount (recs : List (Nat × Option Nat)) : Nat :=
  recs.countP (fun p => p.2.isSome)

/-- Header-line recogniser for the trailing comment block. -/
def isHeaderLineB (l : List Char) : Bool :=
  "### [".toList.isPrefixOf l

/-- A docs comment with snippet `s` and fixed author, timestamp and body,
used for concrete runs of the annotation pipeline. -/
def mkComment (s : String) : CommentDoc :=
  ⟨s.toList, "au".toList, "t0".toList, "body".toList, []⟩

end GDocs

/-! ## Lexicographic string comparison

Python compares `str` values lexicographically by code point; cache
freshness (`cache.should_skip_export`) relies on this for `>=` on ISO
timestamps.  `strLeb a b` is Python's `a <= b`, `strLtb a b` is `a < b`. -/

/-- Python `<` on strings (code-point lexicographic). -/
def strLtb : List Char → List Char → Bool
  | [], [] => false
  | [], _ :: _ => true
  | _ :: _, [] => false
  | a :: as, b :: bs =>
    if a < b then true else if b < a then false else strLtb as bs

/-- Python `<=` on strings (code-point lexicographic). -/
def strLeb : List Char → List Char → Bool
  | [], _ => true
  | _ :: _, [] => false
  | a :: as, b :: bs =>
    if a < b then true else if b < a then false else strLeb as bs

/-- Python `str.strip()` over a character list: drop whitespace from both
ends. -/
def trimChars (l : List Char) : List Char :=
  ((l.dropWhile Char.isWhitespace).reverse.dropWhile
    Char.isWhitespace).reverse

/-- Python `str.strip()`. -/
def pyStrip (s : String) : String :=
  String.mk (trimChars s.toList)

/-! ## Item model (`gdrivekit/item.py`)

`gdrivekit/item.py` is not under `src/`; `ItemType` and `DriveItem` are
modelled from their uses in `clients/drive.py` and `export/cache.py`: the
members named there (`DIRECTORY`, `DOCS_DOCUMENT`, `DOCS_SLIDES`,
`DOCS_SHEETS`, `RAW_FILE`), one catch-all for any remaining member (the
`else` branch of `_process_single_item` reports `Unsupported type`), and a
`value` string per member (exact spellings unknown; only injectivity and
the round trip `ItemType(t.value) = t` are relied on). -/
inductive ItemType
  | directory
  | docsDocument
  | docsSlides
  | docsSheets
  | rawFile
  | otherType
deriving DecidableEq, Repr

/-- The `.value` string of an `ItemType` member, as written into cache
metadata. -/
def ItemType.value : ItemType → String
  | .directory => "directory"
  | .docsDocument => "docs_document"
  | .docsSlides => "docs_slides"
  | .docsSheets => "docs_sheets"
  | .rawFile => "raw_file"
  | .otherType => "other"

/-- `ItemType(value)` enum lookup, as performed by `load_from_disk`;
`none` models the `ValueError` on an unknown value string. -/
def ItemType.ofValue (s : String) : Option ItemType :=
  if s = "directory" then some .directory
  else if s = "docs_document" then some .docsDocument
  else if s = "docs_slides" then some .docsSlides
  else if s = "docs_sheets" then some .docsSheets
  else if s = "raw_file" then some .rawFile
  else if s = "other" then some .otherType
  else none

/-! ## Comment fetching (`DriveClient.get_comments`, `clients/drive.py`) -/

namespace Drive

/-- A raw reply dictionary as returned by the comments API collaborator.
Fields indexed directly by `get_comments` (`reply['id']`,
`reply['createdTime']`, `reply['modifiedTime']`) are `Option`s whose
absence models the `KeyError` path. -/
structure RawReply where
  id : Option String
  author : Option String
  content : Option String
  createdTime : Option String
  modifiedTime : Option String
deriving DecidableEq, Repr

/-- A raw comment dictionary as returned by the comments API collaborator. -/
structure RawComment where
  id : Option String
  author : Option String
  content : Option String
  snippet : Option String
  createdTime : Option String
  modifiedTime : Option String
  resolved : Option Bool
  anchor : Option String
  replies : List RawReply
deriving DecidableEq, Repr

/-- A formatted reply as built by `get_comments`. -/
structure ReplyFmt where
  id : String
  author : String
  content : String
  createdTime : String
  modifiedTime : String
deriving DecidableEq, Repr

/-- A formatted comment as returned by `get_comments`. -/
structure CommentFmt where
  id : String
  author : String
  content : String
  snippet : String
  createdTime : String
  modifiedTime : String
  resolved : Bool
  anchor : String
  replies : List ReplyFmt
deriving DecidableEq, Repr

/-- Formatting of one reply inside `get_comments`.  `parseTime` stands for
`datetime.fromisoformat(... ).strftime('%Y-%m-%d %H:%M')`; `none` models a
`ValueError`/`KeyError`, which the surrounding `try` turns into an empty
overall result. -/
def formatReply (parseTime : String → Option String) (r : RawReply) :
    Except Unit ReplyFmt :=
  match r.id, r.createdTime, r.modifiedTime with
  | some i, some ct, some mt =>
    match parseTime ct, parseTime mt with
    | some fct, some fmt => Except.ok
        { id := i
          author := r.author.getD "Unknown"
          content := r.content.getD ""
          createdTime := fct
          modifiedTime := fmt }
    | _, _ => Except.error ()
  | _, _, _ => Except.error ()

/-- Formatting of one comment inside `get_comments`. -/
def formatComment (parseTime : String → Option String) (c : RawComment) :
    Except Unit CommentFmt :=
  match c.id, c.createdTime, c.modifiedTime with
  | some i, some ct, some mt =>
    match parseTime ct, parseTime mt with
    | some fct, some fmt =>
      match c.replies.mapM (formatReply parseTime) with
      | Except.ok rs => Except.ok
          { id := i
            author := c.author.getD "Unknown"
            content := c.content.getD ""
            snippet := c.snippet.getD ""
            createdTime := fct
            modifiedTime := fmt
            resolved := c.resolved.getD false
            anchor := c.anchor.getD ""
            replies := rs }
      | Except.error e => Except.error e
    | _, _ => Except.error ()
  | _, _, _ => Except.error ()

/-- `DriveClient.get_comments(file_id)`: the paginated fetch is abstracted
as `fetched` (the collaborator's overall outcome); the whole body sits in
one `try/except` that returns `[]` on any failure, including formatting
failures. -/
def getComments (parseTime : String → Option String)
    (fetched : Except String (List RawComment)) : List CommentFmt :=
  match fetched with
  | Except.error _ => []
  | Except.ok raws =>
    match raws.mapM (formatComment parseTime) with
    | Except.error _ => []
    | Except.ok cs => cs

end Drive

/-! ## Export models (`gdrivekit/export/models.py`) -/

namespace Models

/-- `models.ExportedAsset`: asset binary content is a list of bytes. -/
structure ExportedAsset where
  name : String
  content : List Nat
  anchor : String
  mime_type : String
deriving DecidableEq, Repr

/-- The `content` field of `models.ExportedItem`: `str` for markdown,
`bytes` for pdf. -/
inductive ContentVal
  | text (s : String)
  | binary (b : List Nat)
deriving DecidableEq, Repr

/-- `models.ExportedItem`. -/
structure ExportedItem where
  item_id : String
  item_type : ItemType
  title : String
  created_time : String
  modified_time : String
  content : ContentVal
  content_format : String
  assets : List ExportedAsset
  comments : List Drive.CommentFmt
deriving DecidableEq, Repr

/-- `ExportedItem.is_pdf`. -/
def ExportedItem.is_pdf (e : ExportedItem) : Bool :=
  e.content_format = "pdf"

end Models

/-! ## Disk cache (`gdrivekit/export/cache.py`) -/

namespace Cache

/-- The parsed `metadata.json` dictionary.  `modified_time` is an `Option`
because `should_skip_export` reads it with `dict.get` (the key can be
absent in a foreign or partial record). -/
structure MetaData where
  item_id : String
  item_type : String
  title : String
  created_time : String
  modified_time : Option String
  content_format : String
  asset_count : Nat
deriving DecidableEq, Repr

/-- A `metadata.json` file on disk: either unreadable/unparsable (any
exception inside `get_cached_metadata`) or a parsed dictionary. -/
inductive MetaFile
  | corrupt
  | parsed (m : MetaData)
deriving DecidableEq, Repr

/-- The per-item export directory produced by `save_to_disk`:
`metadata.json`, `comments.json`, the content blob, and the `assets/`
directory (absent when the item had no assets).  Asset files are
`(filename, bytes)` pairs. -/
structure ItemDir where
  metadata : MetaFile
  commentsFile : List Drive.CommentFmt
  contentFile : Models.ContentVal
  assetsDir : Option (List (String × List Nat))
deriving DecidableEq, Repr

/-- The cache root: one directory per item id.  `List.lookup` finds the
first binding, and writes replace the binding wholesale. -/
def CacheState := List (String × ItemDir)

/-- Write a file into a directory listing, replacing any file of the same
name. -/
def setFile (d : List (String × List Nat)) (name : String)
    (content : List Nat) : List (String × List Nat) :=
  (name, content) :: d.filter (fun p => p.1 ≠ name)

/-- The metadata dictionary written by `save_to_disk`. -/
def metaOf (e : Models.ExportedItem) : MetaData :=
  { item_id := e.item_id
    item_type := e.item_type.value
    title := e.title
    created_time := e.created_time
    modified_time := some e.modified_time
    content_format := e.content_format
    asset_count := e.assets.length }

/-- `save_to_disk(exported_item)`, producing the item's directory.  The
content file is written in binary mode for pdf and text mode otherwise;
writing a value of the wrong Python type raises (`TypeError` wrapped into
`IOError`), modelled by the `error` cases. -/
def saveToDisk (e : Models.ExportedItem) : Except String ItemDir :=
  match e.is_pdf, e.content with
  | true, Models.ContentVal.text _ => Except.error "IOError"
  | false, Models.ContentVal.binary _ => Except.error "IOError"
  | _, _ => Except.ok
      { metadata := MetaFile.parsed (metaOf e)
        commentsFile := e.comments
        contentFile := e.content
        assetsDir :=
          if e.assets.isEmpty then none
          else some (e.assets.foldl
            (fun d a => setFile d a.name a.content) []) }

/-- Store the freshly written directory under the item's id, replacing any
previous unit for that id (`save_to_disk` reuses the same path). -/
def writeItem (st : CacheState) (e : Models.ExportedItem) (d : ItemDir) :
    CacheState :=
  (e.item_id, d) :: (st : List (String × ItemDir)).filter
    (fun p => p.1 ≠ e.item_id)

/-- `pathlib.Path.suffix` of a file name: the substring from the last dot,
except when that dot is the first or the last character. -/
def suffixOf (name : String) : String :=
  let cs := name.toList
  match ((List.range cs.length).filter
      (fun i => cs.getD i ' ' = '.')).getLast? with
  | none => ""
  | some i =>
    if 0 < i ∧ i + 1 < cs.length then String.mk (cs.drop i) else ""

/-- `pathlib.Path.stem`: the file name with `suffixOf` removed. -/
def stemOf (name : String) : String :=
  let cs := name.toList
  String.mk (cs.take (cs.length - (suffixOf name).toList.length))

/-- Lower-case a string (ASCII, as used on file extensions). -/
def lowerStr (s : String) : String :=
  String.mk (s.toList.map Char.toLower)

/-- The `ext_to_mime` table of `load_from_disk`, with the
`application/octet-stream` default. -/
def extToMime (ext : String) : String :=
  if ext = ".png" then "image/png"
  else if ext = ".jpg" then "image/jpeg"
  else if ext = ".jpeg" then "image/jpeg"
  else if ext = ".gif" then "image/gif"
  else if ext = ".svg" then "image/svg+xml"
  else if ext = ".webp" then "image/webp"
  else if ext = ".pdf" then "application/pdf"
  else "application/octet-stream"

/-- Reconstruct one asset from a file of the `assets/` directory, as
`load_from_disk` does: the anchor is the stem, the mime type is looked up
from the lower-cased extension. -/
def assetOfFile (p : String × List Nat) : Models.ExportedAsset :=
  { name := p.1
    content := p.2
    anchor := stemOf p.1
    mime_type := extToMime (lowerStr (suffixOf p.1)) }

/-- Insert an entry into a name-sorted directory listing. -/
def insertSorted (p : String × List Nat) :
    List (String × List Nat) → List (String × List Nat)
  | [] => [p]
  | q :: rest =>
    if strLeb p.1.toList q.1.toList then p :: q :: rest
    else q :: insertSorted p rest

/-- `sorted(assets_dir.iterdir())`: directory entries sorted by name
(file names within one directory are unique, so any sort by name yields
the same listing). -/
def sortByName (d : List (String × List Nat)) : List (String × List Nat) :=
  d.foldr insertSorted []

/-- `load_from_disk(item_id)`: `none` (no directory) raises
`FileNotFoundError`; a corrupt metadata file or an unknown stored item
type raises `IOError`. -/
def loadFromDisk (dir : Option ItemDir) :
    Except String Models.ExportedItem :=
  match dir with
  | none => Except.error "FileNotFoundError"
  | some d =>
    match d.metadata with
    | MetaFile.corrupt => Except.error "IOError"
    | MetaFile.parsed m =>
      match m.modified_time, ItemType.ofValue m.item_type with
      | some mt, some ty => Except.ok
          { item_id := m.item_id
            item_type := ty
            title := m.title
            created_time := m.created_time
            modified_time := mt
            content := d.contentFile
            content_format := m.content_format
            assets := (sortByName (d.assetsDir.getD [])).map assetOfFile
            comments := d.commentsFile }
      | _, _ => Except.error "IOError"

/-- `get_cached_metadata(item_id)`: `None` when the directory or the
metadata file is missing or unreadable. -/
def getCachedMetadata (st : CacheState) (id : String) : Option MetaData :=
  match (st : List (String × ItemDir)).lookup id with
  | none => none
  | some d =>
    match d.metadata with
    | MetaFile.corrupt => none
    | MetaFile.parsed m => some m

/-- `should_skip_export(item_id, modified_time)`: skip iff a readable
record exists whose `modified_time` value is present, truthy (non-empty)
and `>=` the current one under Python string comparison. -/
def shouldSkipExport (st : CacheState) (id : String)
    (modified_time : String) : Bool :=
  match getCachedMetadata st id with
  | none => false
  | some m =>
    match m.modified_time with
    | none => false
    | some cached =>
      if cached = "" then false
      else strLeb modified_time.toList cached.toList

/-- The observable `(name, content, mime)` triple of an asset, the data the
round-trip claim ranges over. -/
def assetTriple (a : Models.ExportedAsset) : String × List Nat × String :=
  (a.name, a.content, a.mime_type)

end Cache

/-! ## Google Sheets converters (`gdrivekit/export/sheets/converters.py`) -/

namespace Sheets

/-- The `anchor` value of a sheets comment, after the guards of
`_map_comments_to_cells`: falsy (`None`/empty), unparsable or non-dict
JSON, or a parsed `workbook-range` dictionary whose `uid` key may be
absent. -/
inductive AnchorVal
  | missing
  | malformed
  | range (uid : Option Int)
deriving DecidableEq, Repr

/-- A comment as consumed by `_map_comments_to_cells` (only `snippet` and
`anchor` are read there). -/
structure TabComment where
  snippet : String
  anchor : AnchorVal
deriving DecidableEq, Repr

/-- One sheet of `sheets_data`: cells are stored stringified, `none`
modelling Python `None` (stringified to `""`). -/
structure Sheet where
  sheet_id : Int
  sheet_name : String
  data_rows : List (List (Option String))
deriving DecidableEq, Repr

/-- `str(cell_value) if cell_value is not None else ""`. -/
def cellStr (c : Option String) : String :=
  c.getD ""

/-- The `sheet_id_to_data` dictionary: built by a loop, so a duplicate
`sheet_id` keeps the last sheet. -/
def lookupSheet (sheets : List Sheet) (uid : Int) : Option Sheet :=
  sheets.reverse.find? (fun s => s.sheet_id == uid)

/-- The inner column scan: first column of `row` whose stripped stringified
value equals the (stripped) snippet. -/
def findInRow (row : List (Option String)) (snip : String) : Option Nat :=
  (row.enum.find? (fun p => pyStrip (cellStr p.2) == snip)).map (·.1)

/-- The row-major scan of `_map_comments_to_cells`: first `(row, col)` of
`rows` whose cell matches the snippet. -/
def findInRows : List (List (Option String)) → String → Option (Nat × Nat)
  | [], _ => none
  | row :: rest, snip =>
    match findInRow row snip with
    | some c => some (0, c)
    | none => (findInRows rest snip).map (fun rc => (rc.1 + 1, rc.2))

/-- The dictionary key `f"{sheet_name}:{row_idx}:{col_idx}"`. -/
def keyOf (name : String) (r c : Nat) : String :=
  name ++ ":" ++ Nat.repr r ++ ":" ++ Nat.repr c

/-- The cell key comment `c` maps to, if any: all the guard/parse/scan
logic of one loop iteration of `_map_comments_to_cells`. -/
def targetKey (sheets : List Sheet) (c : TabComment) : Option String :=
  let snip := pyStrip c.snippet
  if snip = "" then none
  else
    match c.anchor with
    | AnchorVal.missing => none
    | AnchorVal.malformed => none
    | AnchorVal.range none => none
    | AnchorVal.range (some uid) =>
      match lookupSheet sheets uid with
      | none => none
      | some sheet =>
        (findInRows sheet.data_rows snip).map
          (fun rc => keyOf sheet.sheet_name rc.1 rc.2)

/-- `cell_to_comments[key].append(comment_idx)` with key creation on first
use. -/
def addToKey : List (String × List Nat) → String → Nat →
    List (String × List Nat)
  | [], k, i => [(k, [i])]
  | (k', l) :: rest, k, i =>
    if k' = k then (k', l ++ [i]) :: rest
    else (k', l) :: addToKey rest k i

/-- The comment loop of `_map_comments_to_cells`, threading the running
comment index and the accumulated dictionary. -/
def mapCommentsAux (sheets : List Sheet) :
    Nat → List TabComment → List (String × List Nat) →
      List (String × List Nat)
  | _, [], m => m
  | i, c :: cs, m =>
    mapCommentsAux sheets (i + 1) cs
      (match targetKey sheets c with
       | none => m
       | some k => addToKey m k i)

/-- `_map_comments_to_cells(comments, sheets_data)`. -/
def mapCommentsToCells (comments : List TabComment)
    (sheets : List Sheet) : List (String × List Nat) :=
  mapCommentsAux sheets 0 comments []

/-- `true` iff the dictionary `m` records comment index `i` under key `k`. -/
def mentionsB (m : List (String × List Nat)) (k : String) (i : Nat) :
    Bool :=
  m.any (fun p => p.1 == k && p.2.contains i)

/-- Propositional form of `mentionsB`. -/
def MentionsP (m : List (String × List Nat)) (k : String) (i : Nat) :
    Prop :=
  ∃ l, (k, l) ∈ m ∧ i ∈ l

/-- An anchor as the specification describes it for tabular documents:
resolving directly to a sheet id and a cell. -/
structure SpecAnchor where
  uid : Int
  row : Nat
  col : Nat
deriving DecidableEq, Repr

/-- A tabular comment as the specification describes it. -/
structure SpecTabComment where
  snippet : String
  anchor : SpecAnchor
deriving DecidableEq, Repr

/-- Per-comment outcome under the specification's description. -/
inductive SpecOutcome
  | mappedTo (key : String)
  | unanchoredIn (sheet : String)
deriving DecidableEq, Repr

/-- Formalisation of the specification sentence (§4.1, tabular): the anchor
resolves directly to `(sheet id, cell)`; the snippet is matched against the
literal stringified value of the cell at that exact `(row, col)`; with no
exact match the comment is recorded unanchored for that sheet.  Written
from the specification's words, for comparison with `mapCommentsToCells`
(which is written from the source). -/
def specTabularMap (comments : List SpecTabComment)
    (sheets : List Sheet) : List SpecOutcome :=
  comments.map (fun c =>
    match lookupSheet sheets c.anchor.uid with
    | none => SpecOutcome.unanchoredIn ""
    | some sheet =>
      let cell := (sheet.data_rows.getD c.anchor.row []).getD c.anchor.col
        none
      if pyStrip (cellStr cell) = pyStrip c.snippet then
        SpecOutcome.mappedTo (keyOf sheet.sheet_name c.anchor.row
          c.anchor.col)
      else SpecOutcome.unanchoredIn sheet.sheet_name)

end Sheets

/-! ## Google Slides converters (`gdrivekit/export/slides/converters.py`) -/

namespace Slides

/-- One entry of a slide's `images` list (only `url` is read). -/
structure SlideImage where
  url : Option String
deriving DecidableEq, Repr

/-- One slide of `presentation_data['slides']`. -/
structure SlideData where
  slide_index : Nat
  text_content : String
  speaker_notes : String
  images : List SlideImage
deriving DecidableEq, Repr

/-- The remote fetch collaborator (`requests.get` plus
`raise_for_status`): `none` is any download failure; a success carries the
body bytes and the optional `Content-Type` header. -/
def Fetch : Type :=
  String → Option (List Nat × Option String)

/-- `f"{counter:03d}"`. -/
def pad3 (n : Nat) : String :=
  let s := Nat.repr n
  String.mk (List.replicate (3 - s.length) '0') ++ s

/-- The slides `mime_to_ext` table (no pdf entry; unknown mime defaults to
`.png`). -/
def slidesGuessExt (mime : String) : String :=
  if mime = "image/png" then ".png"
  else if mime = "image/jpeg" then ".jpg"
  else if mime = "image/jpg" then ".jpg"
  else if mime = "image/gif" then ".gif"
  else if mime = "image/svg+xml" then ".svg"
  else if mime = "image/webp" then ".webp"
  else ".png"

/-- `_download_image_from_url(url, counter)`: on success builds the asset
from the body and the `Content-Type` header (default `image/png`); on any
failure returns the empty-content placeholder asset. -/
def downloadImageFromURL (fetch : Fetch) (url : String) (counter : Nat) :
    Models.ExportedAsset :=
  match fetch url with
  | some (data, ctHeader) =>
    let mime := String.mk (trimChars
      ((ctHeader.getD "image/png").toList.takeWhile (fun ch => ch ≠ ';')))
    { name := "slide_image_" ++ pad3 counter ++ slidesGuessExt mime
      content := data
      anchor := "slide_image_" ++ pad3 counter
      mime_type := mime }
  | none =>
    { name := "slide_image_" ++ pad3 counter ++ ".png"
      content := []
      anchor := "slide_image_" ++ pad3 counter
      mime_type := "image/png" }

/-- The markdown reference appended for a successfully downloaded image. -/
def imageRef (a : Models.ExportedAsset) : List Char :=
  "\n![".toList ++ a.anchor.toList ++ "](assets/".toList ++
    a.name.toList ++ ")\n".toList

/-- The image loop of `convert_slides_to_markdown` for one slide: entries
without a url are skipped; each url is downloaded; only assets with
non-empty content are recorded and referenced, and only those advance the
counter. -/
def imagesLoop (fetch : Fetch) :
    List SlideImage → Nat → List (List Char) × List Models.ExportedAsset ×
      Nat
  | [], c => ([], [], c)
  | img :: rest, c =>
    match img.url with
    | none => imagesLoop fetch rest c
    | some url =>
      let asset := downloadImageFromURL fetch url c
      if asset.content.isEmpty then imagesLoop fetch rest c
      else
        let r := imagesLoop fetch rest (c + 1)
        (imageRef asset :: r.1, asset :: r.2.1, r.2.2)

/-- `_format_speaker_notes(notes_text)`. -/
def formatSpeakerNotes (notes : String) : List Char :=
  if trimChars notes.toList = [] then []
  else "\n\n### Speaker Notes\n\n".toList ++ trimChars notes.toList ++
    "\n".toList

/-- The per-slide loop of `convert_slides_to_markdown`, threading the
image counter: header, text (or placeholder), image references, optional
speaker notes, and a closing newline per slide. -/
def slideLoop (fetch : Fetch) :
    List SlideData → Nat → List (List Char) × List Models.ExportedAsset ×
      Nat
  | [], c => ([], [], c)
  | s :: rest, c =>
    let hdr := "# --- Slide ".toList ++
      (Nat.repr (s.slide_index + 1)).toList ++ " ---\n".toList
    let txt :=
      if s.text_content = "" then ["*(No text content)*\n".toList]
      else [s.text_content.toList, "\n".toList]
    let imgs := imagesLoop fetch s.images c
    let notes :=
      if s.speaker_notes = "" then []
      else [formatSpeakerNotes s.speaker_notes]
    let r := slideLoop fetch rest imgs.2.2
    ((hdr :: txt) ++ imgs.1 ++ notes ++ ["\n".toList] ++ r.1,
      imgs.2.1 ++ r.2.1, r.2.2)

/-- `_map_comments_to_slides(comments, slides_data)`: per comment index,
the stripped snippet and the first slide whose `text_content` contains it
(`none` models the `-1` sentinel); comments with empty stripped snippets
are not tracked at all. -/
def mapCommentsToSlides (comments : List GDocs.CommentDoc)
    (slides : List SlideData) : List (Nat × List Char × Option Nat) :=
  (comments.enum).filterMap (fun p =>
    let snip := trimChars p.2.snippet
    if snip = [] then none
    else
      some (p.1, snip,
        (slides.enum.find?
          (fun q => (findSub q.2.text_content.toList snip).isSome)).map
          (·.1)))

/-- `_add_comment_markers_to_markdown`: for each tracked comment with a
slide position, splice `[idx+1]` after the first occurrence of its snippet
(no change when the snippet is not found in the assembled markdown). -/
def addSlideMarkers (md : List Char)
    (positions : List (Nat × List Char × Option Nat)) : List Char :=
  positions.foldl
    (fun acc p =>
      match p.2.2 with
      | none => acc
      | some _ => insertAfterFirst acc p.2.1 (GDocs.marker (p.1 + 1)))
    md

/-- The per-comment lines of the slides `_add_comment_section` (identical
to the docs one except for the `## Comments` heading handled by the
caller). -/
def slidesSectionLines : Nat → List GDocs.CommentDoc → List (List Char)
  | _, [] => []
  | n, c :: cs => GDocs.commentEntryLines n c ++ slidesSectionLines (n + 1) cs

/-- `_add_comment_section(markdown_content, comments)` (slides variant). -/
def addSlidesCommentSection (md : List Char)
    (comments : List GDocs.CommentDoc) : List Char :=
  if comments.isEmpty then md
  else
    md ++ (List.intercalate ['\n']
      ([[], "---".toList, [], "## Comments".toList, []] ++
        slidesSectionLines 1 comments))

/-- `convert_slides_to_markdown(presentation_data, comments)`.  The
`title` key is read by the source but unused in the output; it is omitted
here.  Returns the assembled markdown and the recorded asset list. -/
def convertSlidesToMarkdown (fetch : Fetch) (slides : List SlideData)
    (comments : List GDocs.CommentDoc) :
    List Char × List Models.ExportedAsset :=
  if slides.isEmpty then ("# Empty Presentation\n".toList, [])
  else
    let r := slideLoop fetch slides 1
    let md := r.1.flatten
    let md' :=
      if comments.isEmpty then md
      else
        addSlidesCommentSection
          (addSlideMarkers md (mapCommentsToSlides comments slides))
          comments
    (md', r.2.1)

/-- Whether an image entry has a url whose fetch yields non-empty
content — exactly the entries the slide converter records as assets. -/
def goodImg (fetch : Fetch) (img : SlideImage) : Bool :=
  match img.url with
  | none => false
  | some u =>
    match fetch u with
    | none => false
    | some p => !p.1.isEmpty

/-- The number of `(slide, image)` entries whose url is present and whose
fetch yields non-empty content — the expected number of recorded assets. -/
def goodImageCount (fetch : Fetch) (slides : List SlideData) : Nat :=
  (slides.map (fun s => s.images.countP (goodImg fetch))).sum

end Slides

/-! ## Batch orchestrator (`DriveClient`, `clients/drive.py`) -/

namespace Drive

/-- `gdrivekit.item.DriveItem`, modelled from its uses in
`_process_single_item` and `batch_export_by_ids` (`item.py` is not under
`src/`): the fields those functions read. -/
structure DriveItem where
  id : String
  name : String
  type : ItemType
  modified_time : String
deriving DecidableEq, Repr

/-- The external collaborators of one batch run, abstracted as pure
functions: the per-id metadata fetch (`files().get`), the cache freshness
gate (`cache.should_skip_export` on id and modified time), the document
export pipeline (`export_document`, whose exceptions surface as `error`),
the raw-file existence check and the raw download. -/
structure BatchEnv where
  fetchItem : String → Except String DriveItem
  shouldSkip : String → String → Bool
  exportDocument : String → Except String Unit
  rawFileExists : String → String → Bool
  downloadFile : String → Except String Unit

/-- A result dictionary of `_process_single_item` (or of the fetch-failure
handler of `process_item_wrapper`): exactly one of the three statuses,
with its status-specific fields. -/
inductive ProcResult
  | success (item_id name type path : String)
  | failure (item_id name error : String)
  | skipped (item_id name reason : String)
deriving DecidableEq, Repr

/-- `result["status"] == "success"`. -/
def ProcResult.isSuccess : ProcResult → Bool
  | ProcResult.success _ _ _ _ => true
  | _ => false

/-- `result["status"] == "failure"`. -/
def ProcResult.isFailure : ProcResult → Bool
  | ProcResult.failure _ _ _ => true
  | _ => false

/-- `result["status"] == "skipped"`. -/
def ProcResult.isSkipped : ProcResult → Bool
  | ProcResult.skipped _ _ _ => true
  | _ => false

/-- `Path(a) / b`. -/
def pathJoin (a b : String) : String :=
  a ++ "/" ++ b

/-- `_process_single_item(item, output_path, output_type)` in the flat
(id-list) entry point (`parent_path=None`): directories are skipped;
workspace kinds go through the cache gate then `export_document`;
raw files through the existence check then `download_file`; anything else
is skipped as unsupported; every exception becomes a failure entry. -/
def processSingleItem (env : BatchEnv) (output_path : String)
    (item : DriveItem) : ProcResult :=
  match item.type with
  | ItemType.directory =>
    ProcResult.skipped item.id item.name "Directory (not a file)"
  | ItemType.docsDocument | ItemType.docsSlides | ItemType.docsSheets =>
    if env.shouldSkip item.id item.modified_time then
      ProcResult.skipped item.id item.name "Already up-to-date"
    else
      match env.exportDocument item.id with
      | Except.ok _ =>
        ProcResult.success item.id item.name item.type.value
          (pathJoin output_path item.id)
      | Except.error e => ProcResult.failure item.id item.name e
  | ItemType.rawFile =>
    if env.rawFileExists item.id item.name then
      ProcResult.skipped item.id item.name "Already downloaded"
    else
      match env.downloadFile item.id with
      | Except.ok _ =>
        ProcResult.success item.id item.name item.type.value
          (pathJoin (pathJoin output_path item.id) item.name)
      | Except.error e => ProcResult.failure item.id item.name e
  | ItemType.otherType =>
    ProcResult.skipped item.id item.name
      ("Unsupported type: " ++ ItemType.otherType.value)

/-- `process_item_wrapper(item_id)`: fetch the item, then process it; a
fetch failure becomes a failure entry with name `"Unknown"`. -/
def outcomeOf (env : BatchEnv) (output_path : String) (id : String) :
    ProcResult :=
  match env.fetchItem id with
  | Except.error e =>
    ProcResult.failure id "Unknown" ("Failed to fetch item: " ++ e)
  | Except.ok item => processSingleItem env output_path item

/-- `models.BatchExportResult`. -/
structure BatchExportResult where
  total_processed : Nat
  successes : List ProcResult
  failures : List ProcResult
  skipped : List ProcResult
deriving DecidableEq, Repr

/-- The lock-guarded routing of one result into the three lists. -/
def routeResult (acc : List ProcResult × List ProcResult × List ProcResult)
    (r : ProcResult) : List ProcResult × List ProcResult × List ProcResult :=
  match r with
  | ProcResult.success _ _ _ _ => (acc.1 ++ [r], acc.2.1, acc.2.2)
  | ProcResult.failure _ _ _ => (acc.1, acc.2.1 ++ [r], acc.2.2)
  | ProcResult.skipped _ _ _ => (acc.1, acc.2.1, acc.2.2 ++ [r])

/-- `batch_export_by_ids(item_ids, output_path, ...)`: every id is
processed by the worker wrapper and its single result appended to exactly
one of the three lists; `total` is computed as the sum of the three
lengths.  The worker pool completes all futures; aggregate counts are
order-independent, so the pool is modelled by the sequential fold. -/
def batchExportByIds (env : BatchEnv) (item_ids : List String)
    (output_path : String) : BatchExportResult :=
  let acc := item_ids.foldl
    (fun acc id => routeResult acc (outcomeOf env output_path id))
    ([], [], [])
  { total_processed := acc.1.length + acc.2.1.length + acc.2.2.length
    successes := acc.1
    failures := acc.2.1
    skipped := acc.2.2 }

/-- `_collect_folder_ids_recursive`, generalised to a worklist: the Python
function visits one folder and then its directory children left to right,
sharing one mutable `visited` set; `collectFolderIds roots visited`
processes the pending folder list `roots` in exactly that order, returning
the collected ids and the final visited set.  The folder universe is
finite (`Fin n`); `children f` lists the subfolder ids of `f` (the
directory children returned by `list_items`).  The second recursive call's
visited set is written `p.2 ∪ insert f visited` — provably equal to `p.2`,
which only grows — so the termination measure can use it directly. -/
def collectFolderIds {n : Nat} (children : Fin n → List (Fin n)) :
    List (Fin n) → Finset (Fin n) → List (Fin n) × Finset (Fin n)
  | [], visited => ([], visited)
  | f :: rest, visited =>
    if f ∈ visited then collectFolderIds children rest visited
    else
      let p := collectFolderIds children (children f) (insert f visited)
      let q := collectFolderIds children rest (p.2 ∪ insert f visited)
      (f :: (p.1 ++ q.1), q.2)
termination_by roots visited =>
  ((Finset.univ \ visited).card, roots.length)
decreasing_by
  · exact Prod.Lex.right _ (by simp)
  · apply Prod.Lex.left
    apply Finset.card_lt_card
    constructor
    · exact Finset.sdiff_subset_sdiff (le_refl _)
        (Finset.subset_insert f visited)
    · intro hsub
      have : f ∈ Finset.univ \ visited := by
        simp [Finset.mem_sdiff]
        assumption
      have hmem := hsub this
      simp [Finset.mem_sdiff] at hmem
  · apply Prod.Lex.left
    apply Nat.lt_of_le_of_lt
      (Finset.card_le_card
        (Finset.sdiff_subset_sdiff (le_refl _)
          (Finset.subset_union_right)))
    apply Finset.card_lt_card
    constructor
    · exact Finset.sdiff_subset_sdiff (le_refl _)
        (Finset.subset_insert f visited)
    · intro hsub
      have : f ∈ Finset.univ \ visited := by
        simp [Finset.mem_sdiff]
        assumption
      have hmem := hsub this
      simp [Finset.mem_sdiff] at hmem

end Drive

/-- An exported item whose source `modifiedTime` is the empty string. -/
def exC2item : Models.ExportedItem :=
  { item_id := "X"
    item_type := ItemType.docsDocument
    title := "T"
    created_time := "c"
    modified_time := ""
    content := Models.ContentVal.text "m"
    content_format := "markdown"
    assets := []
    comments := [] }

/-- The directory `save_to_disk` produces for `exC2item`. -/
def exC2dir : Cache.ItemDir :=
  { metadata := Cache.MetaFile.parsed (Cache.metaOf exC2item)
    commentsFile := []
    contentFile := Models.ContentVal.text "m"
    assetsDir := none }

/-- An exported item with a normal non-empty modified time. -/
def exC2wItem : Models.ExportedItem :=
  { item_id := "X"
    item_type := ItemType.docsDocument
    title := "T"
    created_time := "c"
    modified_time := "2024"
    content := Models.ContentVal.text "m"
    content_format := "markdown"
    assets := []
    comments := [] }

/-- The directory `save_to_disk` produces for `exC2wItem`. -/
def exC2wDir : Cache.ItemDir :=
  { metadata := Cache.MetaFile.parsed (Cache.metaOf exC2wItem)
    commentsFile := []
    contentFile := Models.ContentVal.text "m"
    assetsDir := none }

/-- A cached directory whose metadata file is unreadable. -/
def exC10corrupt : Cache.ItemDir :=
  { metadata := Cache.MetaFile.corrupt
    commentsFile := []
    contentFile := Models.ContentVal.text "m"
    assetsDir := none }

/-- A parsed metadata record lacking the `modified_time` key. -/
def exC10noTimeMeta : Cache.MetaData :=
  { item_id := "Y"
    item_type := "docs_document"
    title := "T"
    created_time := "c"
    modified_time := none
    content_format := "markdown"
    asset_count := 0 }

/-- A cached directory whose metadata lacks a recorded modified time. -/
def exC10noTime : Cache.ItemDir :=
  { metadata := Cache.MetaFile.parsed exC10noTimeMeta
    commentsFile := []
    contentFile := Models.ContentVal.text "m"
    assetsDir := none }

/-- An exported item whose only asset carries a mime type that does not
match its file extension. -/
def exC3item : Models.ExportedItem :=
  { item_id := "A"
    item_type := ItemType.docsDocument
    title := "T"
    created_time := "c"
    modified_time := "2024"
    content := Models.ContentVal.text "body"
    content_format := "markdown"
    assets := [{ name := "a.bin", content := [1, 2, 3], anchor := "anc",
                 mime_type := "image/tiff" }]
    comments := [] }

/-- The directory `save_to_disk` produces for `exC3item`. -/
def exC3dir : Cache.ItemDir :=
  { metadata := Cache.MetaFile.parsed (Cache.metaOf exC3item)
    commentsFile := []
    contentFile := Models.ContentVal.text "body"
    assetsDir := some [("a.bin", [1, 2, 3])] }

/-- The item `load_from_disk` reconstructs from `exC3dir`: the asset's
anchor becomes the stem and its mime type is re-derived from the `.bin`
extension. -/
def exC3loaded : Models.ExportedItem :=
  { item_id := "A"
    item_type := ItemType.docsDocument
    title := "T"
    created_time := "c"
    modified_time := "2024"
    content := Models.ContentVal.text "body"
    content_format := "markdown"
    assets := [{ name := "a.bin", content := [1, 2, 3], anchor := "a",
                 mime_type := "application/octet-stream" }]
    comments := [] }

/-- A one-sheet workbook with a single row `["A", "B"]`. -/
def exC4sheet : Sheets.Sheet :=
  { sheet_id := 0, sheet_name := "S",
    data_rows := [[some "A", some "B"]] }

/-- A fetch collaborator for which every download fails. -/
def exC5fetch : Slides.Fetch :=
  fun _ => none

/-- A slide with text and one remote image. -/
def exC5slide : Slides.SlideData :=
  { slide_index := 0, text_content := "hello", speaker_notes := "",
    images := [{ url := some "u" }] }

/-- A batch environment for the five-id scenario: ids `"a"`, `"b"` fail
the metadata fetch, `"c"` is a directory, `"d"`, `"e"` are exportable
documents that are not cached and export cleanly. -/
def exC6env : Drive.BatchEnv :=
  { fetchItem := fun id =>
      if id = "a" then Except.error "network error"
      else if id = "b" then Except.error "network error"
      else if id = "c" then
        Except.ok { id := "c", name := "Folder",
                    type := ItemType.directory, modified_time := "t" }
      else
        Except.ok { id := id, name := "Doc",
                    type := ItemType.docsDocument, modified_time := "t" }
    shouldSkip := fun _ _ => false
    exportDocument := fun _ => Except.ok ()
    rawFileExists := fun _ _ => false
    downloadFile := fun _ => Except.ok () }

/-- The five work-unit ids of the batch scenario. -/
def exC6ids : List String :=
  ["a", "b", "c", "d", "e"]

/-- A two-folder cyclic graph: folder 0 lists folder 1 as a child and
folder 1 lists folder 0 (A → B → A). -/
def exC7children : Fin 2 → List (Fin 2) :=
  fun i => if i = 0 then [1] else [0]

/-- A raw comment dictionary missing the keys that `get_comments` indexes
directly, making its formatting raise. -/
def exC9raw : Drive.RawComment :=
  { id := none, author := none, content := none, snippet := none,
    createdTime := none, modifiedTime := none, resolved := none,
    anchor := none, replies := [] }

/-! ## Lemmas: substring search -/

lemma findSub_some_iff (pat : List Char) :
    ∀ (hay : List Char) (i : Nat),
      findSub hay pat = some i ↔
        pat <+: hay.drop i ∧ ∀ j < i, ¬ pat <+: hay.drop j := by
  intro hay
  induction hay with
  | nil =>
    intro i
    rw [findSub]
    by_cases h : pat.isPrefixOf ([] : List Char)
    · rw [List.isPrefixOf_iff_prefix] at h
      simp only [if_pos (List.isPrefixOf_iff_prefix.mpr h), List.drop_nil]
      constructor
      · rintro h0
        injection h0 with h0
        subst h0
        exact ⟨h, by omega⟩
      · rintro ⟨-, hall⟩
        rcases Nat.eq_zero_or_pos i with rfl | hi
        · rfl
        · exact absurd h (hall 0 hi)
    · rw [if_neg h]
      rw [List.isPrefixOf_iff_prefix] at h
      simp only [List.drop_nil]
      constructor
      · rintro ⟨⟩
      · rintro ⟨hp, -⟩
        exact absurd hp h
  | cons a t ih =>
    intro i
    rw [findSub]
    by_cases h : pat.isPrefixOf (a :: t)
    · rw [if_pos h]
      rw [List.isPrefixOf_iff_prefix] at h
      constructor
      · rintro h0
        injection h0 with h0
        subst h0
        exact ⟨by simpa using h, by omega⟩
      · rintro ⟨-, hall⟩
        rcases Nat.eq_zero_or_pos i with rfl | hi
        · rfl
        · exact absurd (by simpa using h) (hall 0 hi)
    · rw [if_neg h]
      rw [List.isPrefixOf_iff_prefix] at h
      constructor
      · intro hm
        rcases Option.map_eq_some'.mp hm with ⟨k, hk, rfl⟩
        rcases (ih k).mp hk with ⟨h1, h2⟩
        refine ⟨by simpa using h1, ?_⟩
        intro j hj
        rcases j with _ | j'
        · simpa using h
        · simpa using h2 j' (by omega)
      · rintro ⟨h1, h2⟩
        rcases i with _ | k
        · exact absurd (by simpa using h1) h
        · have : findSub t pat = some k := by
            refine (ih k).mpr ⟨by simpa using h1, ?_⟩
            intro j hj
            simpa using h2 (j + 1) (by omega)
          simp [this]

lemma findSub_bound (pat : List Char) :
    ∀ (hay : List Char) (i : Nat), findSub hay pat = some i →
      i + pat.length ≤ hay.length := by
  intro hay
  induction hay with
  | nil =>
    intro i h
    rw [findSub] at h
    by_cases hp : pat.isPrefixOf ([] : List Char)
    · rw [if_pos hp] at h
      injection h with h
      subst h
      rw [List.isPrefixOf_iff_prefix] at hp
      simpa using hp.length_le
    · rw [if_neg hp] at h
      exact absurd h (by simp)
  | cons a t ih =>
    intro i h
    rw [findSub] at h
    by_cases hp : pat.isPrefixOf (a :: t)
    · rw [if_pos hp] at h
      injection h with h
      subst h
      rw [List.isPrefixOf_iff_prefix] at hp
      simpa using hp.length_le
    · rw [if_neg hp] at h
      rcases Option.map_eq_some'.mp h with ⟨k, hk, rfl⟩
      have := ih k hk
      simp only [List.length_cons]
      omega

lemma prefix_of_take_iff (pat x : List Char) (m : Nat)
    (h : pat.length ≤ m) : pat <+: x.take m ↔ pat <+: x := by
  rw [List.prefix_iff_eq_take, List.prefix_iff_eq_take, List.take_take,
    min_eq_left h]

lemma prefix_of_append_left_iff (pat x y : List Char)
    (h : pat.length ≤ x.length) : pat <+: x ++ y ↔ pat <+: x := by
  rw [List.prefix_iff_eq_take, List.prefix_iff_eq_take,
    List.take_append_eq_append_take, Nat.sub_eq_zero_of_le h,
    List.take_zero, List.append_nil]

/-- Splicing text immediately after the first occurrence of `pat` leaves
the first occurrence of `pat` where it was. -/
lemma findSub_insert_stable (hay pat ins : List Char) (i : Nat)
    (h : findSub hay pat = some i) :
    findSub (hay.take (i + pat.length) ++ ins ++ hay.drop (i + pat.length))
      pat = some i := by
  rcases (findSub_some_iff pat hay i).mp h with ⟨h1, h2⟩
  have hb : i + pat.length ≤ hay.length := findSub_bound pat hay i h
  have hlenA : (hay.take (i + pat.length)).length = i + pat.length := by
    simp [List.length_take]
    omega
  have key : ∀ j, j ≤ i →
      (pat <+: (hay.take (i + pat.length) ++ ins ++
        hay.drop (i + pat.length)).drop j ↔ pat <+: hay.drop j) := by
    intro j hj
    rw [List.append_assoc, List.drop_append_eq_append_drop,
      Nat.sub_eq_zero_of_le
        (by omega : j ≤ (hay.take (i + pat.length)).length),
      List.drop_zero]
    rw [prefix_of_append_left_iff]
    · rw [List.drop_take]
      rw [prefix_of_take_iff]
      omega
    · rw [List.length_drop, hlenA]
      omega
  refine (findSub_some_iff pat _ i).mpr ⟨?_, ?_⟩
  · exact (key i le_rfl).mpr h1
  · intro j hj hpre
    exact h2 j hj ((key j (by omega)).mp hpre)

/-! ## Lemmas: docs annotation -/

namespace GDocs

lemma addMarkersAux_map_fst :
    ∀ (pending : List (Nat × List Char)) (md : List Char),
      ((addMarkersAux md pending).2).map Prod.fst = pending.map Prod.fst := by
  intro pending
  induction pending with
  | nil => intro md; rfl
  | cons p rest ih =>
    intro md
    rcases p with ⟨n, s⟩
    simp [addMarkersAux, ih]

lemma addMarkersAux_count :
    ∀ (pending : List (Nat × List Char)) (md : List Char),
      allMarkersFound md pending = true →
        insertedCount (addMarkersAux md pending).2 = pending.length := by
  intro pending
  induction pending with
  | nil => intro md _; rfl
  | cons p rest ih =>
    intro md hall
    rcases p with ⟨n, s⟩
    rw [allMarkersFound] at hall
    rw [Bool.and_eq_true] at hall
    rcases hall with ⟨hsome, hrest⟩
    rw [addMarkersAux]
    rw [insertedCount, List.countP_cons]
    simp only [hsome, if_pos]
    have := ih (markOnce md n s) hrest
    rw [insertedCount] at this
    rw [this]
    simp

lemma enumFrom_fst_eq {α : Type} (l : List α) :
    ∀ n : Nat, (List.enumFrom n l).map Prod.fst = List.range' n l.length := by
  induction l with
  | nil => intro n; rfl
  | cons a t ih => intro n; simp [List.enumFrom, List.range'_succ, ih]

lemma pendingOf_map_fst (comments : List CommentDoc) (numAnchors : Nat) :
    (pendingOf comments numAnchors).map Prod.fst =
      List.range' 1 (min numAnchors comments.length) := by
  rw [pendingOf, enumFrom_fst_eq]
  simp [List.length_take]

lemma pendingOf_length (comments : List CommentDoc) (numAnchors : Nat) :
    (pendingOf comments numAnchors).length =
      min numAnchors comments.length := by
  rw [pendingOf]
  simp [List.enumFrom_length, List.length_take]

/-- A comment whose snippet is empty or not found leaves the content
untouched at its step. -/
lemma markOnce_of_none (md : List Char) (n : Nat) (s : List Char)
    (h : markIndex md s = none) : markOnce md n s = md := by
  rw [markIndex] at h
  rw [markOnce]
  by_cases hs : s = []
  · rw [if_pos hs]
  · rw [if_neg hs]
    rw [if_neg hs] at h
    rw [insertAfterFirst, h]

lemma isHeaderLineB_header (n : Nat) : isHeaderLineB (headerLine n) = true := by
  rw [isHeaderLineB, headerLine, List.isPrefixOf_iff_prefix]
  exact List.prefix_append _ _

lemma isHeaderLineB_cons (a : Char) (l : List Char) (h : a ≠ '#') :
    isHeaderLineB (a :: l) = false := by
  have h5 : "### [".toList = '#' :: "## [".toList := rfl
  rw [isHeaderLineB, h5]
  simp only [List.isPrefixOf, Bool.and_eq_false_iff]
  left
  exact beq_eq_false_iff_ne.mpr (fun hc => h hc.symm)

lemma isHeaderLineB_nil : isHeaderLineB [] = false := by
  decide

lemma filter_commentEntryLines (n : Nat) (c : CommentDoc) :
    (commentEntryLines n c).filter isHeaderLineB = [headerLine n] := by
  rw [commentEntryLines]
  rw [List.filter_append]
  rw [List.filter_cons_of_pos (isHeaderLineB_header n)]
  rw [List.filter_cons_of_neg (by simp [isHeaderLineB_nil])]
  rw [List.filter_cons_of_neg (by simp [isHeaderLineB_cons '[' _ (by decide)])]
  rw [List.filter_cons_of_neg (by simp [isHeaderLineB_nil])]
  have hrep : (c.replies.map (fun r =>
      "  - [".toList ++ r.createdTime ++ "] ".toList ++ r.author ++
        ": ".toList ++ r.content)).filter isHeaderLineB = [] := by
    rw [List.filter_eq_nil_iff]
    intro a ha
    rcases List.mem_map.mp ha with ⟨r, -, rfl⟩
    have h6 : "  - [".toList ++ r.createdTime ++ "] ".toList ++ r.author ++
        ": ".toList ++ r.content =
        ' ' :: (" - [".toList ++ r.createdTime ++ "] ".toList ++ r.author ++
          ": ".toList ++ r.content) := rfl
    rw [h6, isHeaderLineB_cons ' ' _ (by decide)]
    simp
  rw [hrep]
  rcases hr : c.replies.isEmpty with _ | _
  · rw [if_neg (by simp [hr])]
    rw [List.filter_cons_of_neg (by simp [isHeaderLineB_nil])]
    rfl
  · rw [if_pos (by simp [hr])]
    rfl

lemma filter_sectionLines (comments : List CommentDoc) :
    ∀ n : Nat, (sectionLines n comments).filter isHeaderLineB =
      (List.range' n comments.length).map headerLine := by
  induction comments with
  | nil => intro n; rfl
  | cons c cs ih =>
    intro n
    rw [sectionLines, List.filter_append, filter_commentEntryLines, ih]
    simp [List.range'_succ]

end GDocs

/-! ## Claim C1 -/

/-- C1, counterexample.  Content `"abc zz"` with three comments whose
snippets `"ab"`, `"abc"`, `"zz"` are all non-empty and each occur exactly
once in the content.  The claim asserts exactly `N = 3` inline markers are
inserted; the code inserts 1 when the HTML carries 2 reference anchors
(the third comment is beyond the anchor count) and 2 even when it carries
3 (the marker spliced for `"ab"` splits the only occurrence of `"abc"`).
-/
theorem claim_C1_counterexample :
    ([GDocs.mkComment "ab", GDocs.mkComment "abc",
        GDocs.mkComment "zz"].all
      (fun c => !c.snippet.isEmpty &&
        countSub "abc zz".toList c.snippet == 1)) = true ∧
    [GDocs.mkComment "ab", GDocs.mkComment "abc",
        GDocs.mkComment "zz"].length = 3 ∧
    GDocs.insertedCount (GDocs.addMarkersAux "abc zz".toList
      (GDocs.pendingOf [GDocs.mkComment "ab", GDocs.mkComment "abc",
        GDocs.mkComment "zz"] 2)).2 = 1 ∧
    GDocs.insertedCount (GDocs.addMarkersAux "abc zz".toList
      (GDocs.pendingOf [GDocs.mkComment "ab", GDocs.mkComment "abc",
        GDocs.mkComment "zz"] 3)).2 = 2 ∧
    (1 : Nat) ≠ 3 ∧ (2 : Nat) ≠ 3 := by
  decide

/-- C1 (amended): for flowing-text documents, the marker loop processes
only the first `min(numAnchors, N)` input comments, where `numAnchors`
counts the `cmnt_ref` anchors of the HTML export.  Provided the HTML
carries at least `N` anchors and every comment's snippet is non-empty and
still occurs in the content as already marked when that comment is
processed, exactly `N` inline markers are spliced in, numbered `1..N` by
input position; `add_comment_markers_to_markdown` returns exactly the loop
result; a comment whose snippet is empty or not found changes nothing at
its step; and the trailing block of `add_comment_section` always lists
exactly `N` entries, headed `### [1] .. ### [N]` in input order. -/
theorem claim_C1_amended (md : List Char) (comments : List GDocs.CommentDoc)
    (numAnchors : Nat) (md₀ s₀ : List Char) (n₀ : Nat)
    (hne : comments ≠ [])
    (hanch : comments.length ≤ numAnchors)
    (hfound : GDocs.allMarkersFound md
      (GDocs.pendingOf comments numAnchors) = true)
    (hmiss : GDocs.markIndex md₀ s₀ = none) :
    GDocs.insertedCount (GDocs.addMarkersAux md
        (GDocs.pendingOf comments numAnchors)).2 = comments.length ∧
    ((GDocs.addMarkersAux md
        (GDocs.pendingOf comments numAnchors)).2).map Prod.fst =
      List.range' 1 comments.length ∧
    GDocs.addCommentMarkersToMarkdown md numAnchors comments =
      (GDocs.addMarkersAux md (GDocs.pendingOf comments numAnchors)).1 ∧
    GDocs.markOnce md₀ n₀ s₀ = md₀ ∧
    GDocs.addCommentSection md comments =
      md ++ (List.intercalate ['\n']
        ([[], "---".toList, [], "Comments:".toList, []] ++
          GDocs.sectionLines 1 comments)) ∧
    (GDocs.sectionLines 1 comments).filter GDocs.isHeaderLineB =
      (List.range' 1 comments.length).map GDocs.headerLine := by
  have hmin : min numAnchors comments.length = comments.length :=
    min_eq_right hanch
  refine ⟨?_, ?_, ?_, ?_, ?_, ?_⟩
  · rw [GDocs.addMarkersAux_count _ md hfound, GDocs.pendingOf_length, hmin]
  · rw [GDocs.addMarkersAux_map_fst, GDocs.pendingOf_map_fst, hmin]
  · rw [GDocs.addCommentMarkersToMarkdown,
      if_neg (by simp [List.isEmpty_iff, hne])]
  · exact GDocs.markOnce_of_none md₀ n₀ s₀ hmiss
  · rw [GDocs.addCommentSection, if_neg (by simp [List.isEmpty_iff, hne])]
  · exact GDocs.filter_sectionLines comments 1

/-- C1, witness: the amended theorem applied to content `"hello world"`
with two comments anchored at two HTML anchors, plus one empty-snippet
no-op instance. -/
theorem claim_C1_witness :
    GDocs.insertedCount (GDocs.addMarkersAux "hello world".toList
        (GDocs.pendingOf [GDocs.mkComment "hello",
          GDocs.mkComment "world"] 2)).2 =
      [GDocs.mkComment "hello", GDocs.mkComment "world"].length ∧
    ((GDocs.addMarkersAux "hello world".toList
        (GDocs.pendingOf [GDocs.mkComment "hello",
          GDocs.mkComment "world"] 2)).2).map Prod.fst =
      List.range' 1 [GDocs.mkComment "hello",
        GDocs.mkComment "world"].length ∧
    GDocs.addCommentMarkersToMarkdown "hello world".toList 2
        [GDocs.mkComment "hello", GDocs.mkComment "world"] =
      (GDocs.addMarkersAux "hello world".toList
        (GDocs.pendingOf [GDocs.mkComment "hello",
          GDocs.mkComment "world"] 2)).1 ∧
    GDocs.markOnce "x".toList 1 "q".toList = "x".toList ∧
    GDocs.addCommentSection "hello world".toList
        [GDocs.mkComment "hello", GDocs.mkComment "world"] =
      "hello world".toList ++ (List.intercalate ['\n']
        ([[], "---".toList, [], "Comments:".toList, []] ++
          GDocs.sectionLines 1 [GDocs.mkComment "hello",
            GDocs.mkComment "world"])) ∧
    (GDocs.sectionLines 1 [GDocs.mkComment "hello",
        GDocs.mkComment "world"]).filter GDocs.isHeaderLineB =
      (List.range' 1 [GDocs.mkComment "hello",
        GDocs.mkComment "world"].length).map GDocs.headerLine :=
  claim_C1_amended "hello world".toList
    [GDocs.mkComment "hello", GDocs.mkComment "world"] 2
    "x".toList "q".toList 1
    (by decide) (by decide) (by decide) (by decide)

/-! ## Claim C8 -/

/-- C8, counterexample.  Content `"abab"`, comments 1, 2, 3 with snippets
`"ab"`, `"a"`, `"ab"`.  Comments 1 and 3 share the snippet `"ab"`, which
occurs in the content, yet their markers are spliced at indices 0 and 8:
the marker `[2]` of the intervening comment splits the first `"ab"`
occurrence, so comment 3 matches the second occurrence instead
(`"a[2]b[1]ab[3]"`) — not the same first occurrence, contradicting the
claim. -/
theorem claim_C8_counterexample :
    (GDocs.mkComment "ab").snippet = (GDocs.mkComment "ab").snippet ∧
    countSub "abab".toList "ab".toList = 2 ∧
    (GDocs.addMarkersAux "abab".toList
        (GDocs.pendingOf [GDocs.mkComment "ab", GDocs.mkComment "a",
          GDocs.mkComment "ab"] 3)).2 =
      [(1, some 0), (2, some 0), (3, some 8)] ∧
    (some 0 : Option Nat) ≠ some 8 ∧
    GDocs.addCommentMarkersToMarkdown "abab".toList 3
        [GDocs.mkComment "ab", GDocs.mkComment "a", GDocs.mkComment "ab"] =
      "a[2]b[1]ab[3]".toList := by
  decide

/-- C8 (amended): each comment's snippet search restarts from the start of
the document, and splicing a marker immediately after the first occurrence
of a snippet leaves that first occurrence in place; hence two comments with
the same snippet processed consecutively splice their markers at the same
first occurrence of that text.  (An intervening comment whose marker
splits the occurrence can displace the later match — see the
counterexample.) -/
theorem claim_C8_amended (md s : List Char) (n₁ n₂ p : Nat)
    (rest : List (Nat × List Char)) (hs : s ≠ [])
    (hf : findSub md s = some p) :
    ((GDocs.addMarkersAux md ((n₁, s) :: (n₂, s) :: rest)).2).take 2 =
      [(n₁, some p), (n₂, some p)] := by
  have hmi : GDocs.markIndex md s = some p := by
    rw [GDocs.markIndex, if_neg hs, hf]
  have hmo : GDocs.markOnce md n₁ s =
      md.take (p + s.length) ++ GDocs.marker n₁ ++
        md.drop (p + s.length) := by
    rw [GDocs.markOnce, if_neg hs, insertAfterFirst, hf]
  have hst : findSub (GDocs.markOnce md n₁ s) s = some p := by
    rw [hmo]
    exact findSub_insert_stable md s _ p hf
  have hmi2 : GDocs.markIndex (GDocs.markOnce md n₁ s) s = some p := by
    rw [GDocs.markIndex, if_neg hs, hst]
  simp only [GDocs.addMarkersAux, hmi, hmi2, List.take]

/-- C8, witness: two comments with the common snippet `"ab"` on content
`"abab"` both splice at index 0. -/
theorem claim_C8_witness :
    ((GDocs.addMarkersAux "abab".toList
        [(1, "ab".toList), (2, "ab".toList)]).2).take 2 =
      [(1, some 0), (2, some 0)] :=
  claim_C8_amended "abab".toList "ab".toList 1 2 0 []
    (by decide) (by decide)

/-! ## Lemmas: string comparison -/

lemma strLeb_refl : ∀ l : List Char, strLeb l l = true := by
  intro l
  induction l with
  | nil => rfl
  | cons a t ih => rw [strLeb]; simp [lt_irrefl, ih]

lemma strLtb_imp_leb_false :
    ∀ (x y : List Char), strLtb x y = true → strLeb y x = false := by
  intro x
  induction x with
  | nil =>
    intro y h
    cases y with
    | nil => simp [strLtb] at h
    | cons b bs => rfl
  | cons a as ih =>
    intro y h
    cases y with
    | nil => simp [strLtb] at h
    | cons b bs =>
      rw [strLtb] at h
      rw [strLeb]
      by_cases h1 : a < b
      · rw [if_neg (lt_asymm h1), if_pos h1]
      · rw [if_neg h1] at h
        by_cases h2 : b < a
        · rw [if_pos h2] at h
          simp at h
        · rw [if_neg h2] at h
          rw [if_neg h2, if_neg h1]
          exact ih bs h

/-! ## Lemmas: cache -/

namespace Cache

lemma saveToDisk_ok (e : Models.ExportedItem) (d : ItemDir)
    (h : saveToDisk e = Except.ok d) :
    d = { metadata := MetaFile.parsed (metaOf e)
          commentsFile := e.comments
          contentFile := e.content
          assetsDir :=
            if e.assets.isEmpty then none
            else some (e.assets.foldl
              (fun d a => setFile d a.name a.content) []) } := by
  rw [saveToDisk] at h
  split at h
  · exact absurd h (by simp)
  · exact absurd h (by simp)
  · injection h with h
    exact h.symm

lemma getCachedMetadata_write (st : CacheState) (e : Models.ExportedItem)
    (d : ItemDir) (hd : d.metadata = MetaFile.parsed (metaOf e)) :
    getCachedMetadata (writeItem st e d) e.item_id = some (metaOf e) := by
  rw [writeItem, getCachedMetadata]
  simp [List.lookup, hd]

end Cache


/-! ## Lemmas: round trip -/

lemma ItemType.ofValue_value :
    ∀ t : ItemType, ItemType.ofValue t.value = some t := by
  intro t
  cases t <;> rfl

namespace Cache

lemma insertSorted_perm (p : String × List Nat) :
    ∀ l, (insertSorted p l).Perm (p :: l) := by
  intro l
  induction l with
  | nil => exact List.Perm.refl _
  | cons q rest ih =>
    rw [insertSorted]
    by_cases h : strLeb p.1.toList q.1.toList = true
    · rw [if_pos h]
    · rw [if_neg h]
      exact (ih.cons q).trans (List.Perm.swap p q rest)

lemma sortByName_perm (d : List (String × List Nat)) :
    (sortByName d).Perm d := by
  induction d with
  | nil => exact List.Perm.refl _
  | cons p rest ih =>
    exact (insertSorted_perm p _).trans (ih.cons p)

lemma foldl_setFile_perm :
    ∀ (assets : List Models.ExportedAsset) (acc : List (String × List Nat)),
      (∀ a ∈ assets, ∀ q ∈ acc, q.1 ≠ a.name) →
      ((assets.map (fun a => a.name)).Nodup) →
      (assets.foldl (fun d a => setFile d a.name a.content) acc).Perm
        (acc ++ assets.map (fun a => (a.name, a.content))) := by
  intro assets
  induction assets with
  | nil => intro acc _ _; simp
  | cons a as ih =>
    intro acc hdisj hnodup
    rw [List.foldl_cons]
    have hset : setFile acc a.name a.content = (a.name, a.content) :: acc := by
      rw [setFile]
      congr 1
      apply List.filter_eq_self.mpr
      intro q hq
      simpa using hdisj a (List.mem_cons_self a as) q hq
    rw [hset]
    simp only [List.map_cons, List.nodup_cons] at hnodup
    have hd2 : ∀ b ∈ as, ∀ q ∈ (a.name, a.content) :: acc, q.1 ≠ b.name := by
      intro b hb q hq
      rcases List.mem_cons.mp hq with rfl | hq2
      · intro hcontra
        have hmem : b.name ∈ List.map (fun x => x.name) as :=
          List.mem_map_of_mem (fun x => x.name) hb
        rw [← hcontra] at hmem
        exact hnodup.1 hmem
      · exact hdisj b (List.mem_cons_of_mem _ hb) q hq2
    have := ih ((a.name, a.content) :: acc) hd2 hnodup.2
    refine this.trans ?_
    simpa using (List.perm_middle).symm

end Cache

/-! ## Claim C2 -/

/-- C2, counterexample.  Write `exC2item`, whose `modifiedTime` is the
empty string `""`.  A cache record for `"X"` then exists whose recorded
modified time `""` is `>=` the current time `""` under Python string
comparison, so the claim requires `should_skip("X", "") = true`; but the
code treats the falsy cached value as missing and returns `false`. -/
theorem claim_C2_counterexample :
    Cache.saveToDisk exC2item = Except.ok exC2dir ∧
    Cache.getCachedMetadata (Cache.writeItem [] exC2item exC2dir) "X" =
      some (Cache.metaOf exC2item) ∧
    (Cache.metaOf exC2item).modified_time = some "" ∧
    strLeb "".toList "".toList = true ∧
    Cache.shouldSkipExport (Cache.writeItem [] exC2item exC2dir) "X" ""
      = false :=
  ⟨rfl, by decide, by decide, by decide, by decide⟩

/-- C2 (amended): `should_skip(id, t)` is true iff a readable record for
`id` exists whose recorded `modified_time` is a non-empty string `>=` `t`
under Python string comparison (the code treats a missing or empty
recorded time as no record); a missing record always gives false; and for
every item whose `modifiedTime` `t` is non-empty, immediately after
`write`, `should_skip(id, t)` is true and `should_skip(id, t2)` is false
for any `t2 > t`. -/
theorem claim_C2_amended (st : Cache.CacheState)
    (e : Models.ExportedItem) (d : Cache.ItemDir) (t2 : String)
    (st₀ : Cache.CacheState) (id₀ t₀ : String)
    (st₁ : Cache.CacheState) (id₁ t₁ : String) (m₁ : Cache.MetaData)
    (s₁ : String)
    (hsave : Cache.saveToDisk e = Except.ok d)
    (hne : e.modified_time ≠ "")
    (hgt : strLtb e.modified_time.toList t2.toList = true)
    (hmiss : Cache.getCachedMetadata st₀ id₀ = none)
    (hrec : Cache.getCachedMetadata st₁ id₁ = some m₁)
    (hmt : m₁.modified_time = some s₁)
    (hs₁ : s₁ ≠ "") :
    Cache.shouldSkipExport (Cache.writeItem st e d) e.item_id
      e.modified_time = true ∧
    Cache.shouldSkipExport (Cache.writeItem st e d) e.item_id t2 = false ∧
    Cache.shouldSkipExport st₀ id₀ t₀ = false ∧
    Cache.shouldSkipExport st₁ id₁ t₁ = strLeb t₁.toList s₁.toList := by
  have hd : d.metadata = Cache.MetaFile.parsed (Cache.metaOf e) := by
    rw [Cache.saveToDisk_ok e d hsave]
  have hget := Cache.getCachedMetadata_write st e d hd
  refine ⟨?_, ?_, ?_, ?_⟩
  · rw [Cache.shouldSkipExport, hget]
    simp only [Cache.metaOf]
    rw [if_neg hne]
    exact strLeb_refl _
  · rw [Cache.shouldSkipExport, hget]
    simp only [Cache.metaOf]
    rw [if_neg hne]
    exact strLtb_imp_leb_false _ _ hgt
  · rw [Cache.shouldSkipExport, hmiss]
  · simp [Cache.shouldSkipExport, hrec, hmt, hs₁]

/-- C2, witness: the amended theorem at a concrete store: after writing an
item with modified time `"2024"`, `should_skip("X", "2024")` is true and
`should_skip("X", "2025")` is false; a missing record gives false; and
with a recorded time `"2024"`, the decision equals the string
comparison. -/
theorem claim_C2_witness :
    Cache.shouldSkipExport
      (Cache.writeItem [] exC2wItem exC2wDir) "X" "2024" = true ∧
    Cache.shouldSkipExport
      (Cache.writeItem [] exC2wItem exC2wDir) "X" "2025" = false ∧
    Cache.shouldSkipExport [] "Y" "2024" = false ∧
    Cache.shouldSkipExport
      (Cache.writeItem [] exC2wItem exC2wDir) "X" "2020" =
      strLeb "2020".toList "2024".toList :=
  claim_C2_amended [] exC2wItem exC2wDir "2025" [] "Y" "2024"
    (Cache.writeItem [] exC2wItem exC2wDir) "X" "2020"
    (Cache.metaOf exC2wItem) "2024"
    rfl (by decide) (by decide) (by decide) (by decide)
    (by decide) (by decide)

/-! ## Claim C10 -/

/-- C10: `should_skip` degrades to `false` — re-export — when the record
for the id is unreadable (corrupt) or lacks a usable `modified_time`:
`get_cached_metadata` returns `None` for a corrupt file, and a parsed
record without a recorded time is rejected.  The Lean model is a total
function, matching the source's catch-all exception handling
(`should_skip_export` never raises). -/
theorem claim_C10 (st : Cache.CacheState) (id t : String)
    (d : Cache.ItemDir)
    (st₂ : Cache.CacheState) (id₂ t₂ : String) (m₂ : Cache.MetaData)
    (hlook : (st : List (String × Cache.ItemDir)).lookup id = some d)
    (hcor : d.metadata = Cache.MetaFile.corrupt)
    (hrec : Cache.getCachedMetadata st₂ id₂ = some m₂)
    (hmt : m₂.modified_time = none) :
    Cache.getCachedMetadata st id = none ∧
    Cache.shouldSkipExport st id t = false ∧
    Cache.shouldSkipExport st₂ id₂ t₂ = false := by
  have hg : Cache.getCachedMetadata st id = none := by
    rw [Cache.getCachedMetadata, hlook]
    simp [hcor]
  refine ⟨hg, ?_, ?_⟩
  · rw [Cache.shouldSkipExport, hg]
  · simp [Cache.shouldSkipExport, hrec, hmt]

/-- C10, witness: a corrupt record for `"X"` and a record without
modified time for `"Y"` both yield `should_skip = false`. -/
theorem claim_C10_witness :
    Cache.getCachedMetadata [("X", exC10corrupt)] "X" = none ∧
    Cache.shouldSkipExport [("X", exC10corrupt)] "X" "2024" = false ∧
    Cache.shouldSkipExport [("Y", exC10noTime)] "Y" "2024" = false :=
  claim_C10 [("X", exC10corrupt)] "X" "2024" exC10corrupt
    [("Y", exC10noTime)] "Y" "2024" exC10noTimeMeta
    (by decide) rfl (by decide) rfl


/-! ## Claim C3 -/

/-- C3, counterexample.  Write then read of `exC3item`, whose single asset
`a.bin` carries mime type `image/tiff`.  The reload re-derives the mime
type from the file extension (`.bin` is not in the table, giving
`application/octet-stream`), so the asset's `(name, content, mime)` triple
is not preserved even as a set. -/
theorem claim_C3_counterexample :
    Cache.saveToDisk exC3item = Except.ok exC3dir ∧
    Cache.loadFromDisk (some exC3dir) = Except.ok exC3loaded ∧
    exC3item.assets.map Cache.assetTriple =
      [("a.bin", [1, 2, 3], "image/tiff")] ∧
    exC3loaded.assets.map Cache.assetTriple =
      [("a.bin", [1, 2, 3], "application/octet-stream")] ∧
    ¬ (exC3loaded.assets.map Cache.assetTriple).Perm
        (exC3item.assets.map Cache.assetTriple) :=
  ⟨rfl, rfl, by decide, by decide, by decide⟩

/-- C3 (amended): for every exported item whose asset names are distinct
(a stated data-model invariant: name uniqueness within one export),
`save_to_disk` followed by `load_from_disk` reproduces identical content,
an identical ordered comment list and identical metadata, and preserves
the set of asset `(name, content)` pairs, order not significant — all of
this unconditionally.  Each asset reloads with its mime type re-derived
canonically from the asset name's extension (`ext_to_mime`, default
`application/octet-stream`): the reloaded `(name, content, mime)` triples
are, as a set, exactly the saved `(name, content)` pairs with the
extension-canonical mime, so an asset's mime type survives the round trip
exactly when it was extension-canonical. -/
theorem claim_C3_amended (e : Models.ExportedItem) (d : Cache.ItemDir)
    (e' : Models.ExportedItem)
    (hsave : Cache.saveToDisk e = Except.ok d)
    (hload : Cache.loadFromDisk (some d) = Except.ok e')
    (hnodup : (e.assets.map (fun a => a.name)).Nodup) :
    e'.content = e.content ∧
    e'.comments = e.comments ∧
    (e'.assets.map (fun a => (a.name, a.content))).Perm
      (e.assets.map (fun a => (a.name, a.content))) ∧
    (e'.assets.map Cache.assetTriple).Perm
      (e.assets.map (fun a => (a.name, a.content,
        Cache.extToMime (Cache.lowerStr (Cache.suffixOf a.name))))) ∧
    e'.item_id = e.item_id ∧
    e'.item_type = e.item_type ∧
    e'.title = e.title ∧
    e'.modified_time = e.modified_time := by
  have hd := Cache.saveToDisk_ok e d hsave
  subst hd
  simp only [Cache.loadFromDisk, Cache.metaOf,
    ItemType.ofValue_value e.item_type] at hload
  injection hload with hload
  subst hload
  refine ⟨rfl, rfl, ?_, ?_, rfl, rfl, rfl, rfl⟩
  · by_cases he : e.assets.isEmpty = true
    · have hnil : e.assets = [] := List.isEmpty_iff.mp he
      simp [hnil, Cache.sortByName]
    · rw [if_neg he]
      simp only [Option.getD_some]
      have hfold := Cache.foldl_setFile_perm e.assets []
        (by intro a _ q hq; simp at hq) hnodup
      rw [List.nil_append] at hfold
      have hsort := (Cache.sortByName_perm _).trans hfold
      rw [List.map_map]
      refine (hsort.map ((fun a => (a.name, a.content)) ∘
        Cache.assetOfFile)).trans ?_
      rw [List.map_map]
      apply List.Perm.of_eq
      apply List.map_congr_left
      intro a ha
      simp only [Function.comp_apply, Cache.assetOfFile]
  · by_cases he : e.assets.isEmpty = true
    · have hnil : e.assets = [] := List.isEmpty_iff.mp he
      simp [hnil, Cache.sortByName]
    · rw [if_neg he]
      simp only [Option.getD_some]
      have hfold := Cache.foldl_setFile_perm e.assets []
        (by intro a _ q hq; simp at hq) hnodup
      rw [List.nil_append] at hfold
      have hsort := (Cache.sortByName_perm _).trans hfold
      rw [List.map_map]
      refine (hsort.map (Cache.assetTriple ∘ Cache.assetOfFile)).trans ?_
      rw [List.map_map]
      apply List.Perm.of_eq
      apply List.map_congr_left
      intro a ha
      simp only [Function.comp_apply, Cache.assetOfFile, Cache.assetTriple]

/-- C3, witness: the amended theorem applied to `exC3item` itself — the
very item with the extension-inconsistent mime `image/tiff` under the
name `a.bin`: content, comments, metadata and the `(name, content)` pair
set are reproduced, and the reloaded triple carries the extension-derived
mime `application/octet-stream`. -/
theorem claim_C3_witness :
    exC3loaded.content = exC3item.content ∧
    exC3loaded.comments = exC3item.comments ∧
    (exC3loaded.assets.map (fun a => (a.name, a.content))).Perm
      (exC3item.assets.map (fun a => (a.name, a.content))) ∧
    (exC3loaded.assets.map Cache.assetTriple).Perm
      (exC3item.assets.map (fun a => (a.name, a.content,
        Cache.extToMime (Cache.lowerStr (Cache.suffixOf a.name))))) ∧
    exC3loaded.item_id = exC3item.item_id ∧
    exC3loaded.item_type = exC3item.item_type ∧
    exC3loaded.title = exC3item.title ∧
    exC3loaded.modified_time = exC3item.modified_time :=
  claim_C3_amended exC3item exC3dir exC3loaded rfl rfl (by decide)

/-! ## Lemmas: sheets comment mapping -/

namespace Sheets

lemma mentionsB_iff (m : List (String × List Nat)) (k : String) (i : Nat) :
    mentionsB m k i = true ↔ MentionsP m k i := by
  rw [mentionsB, List.any_eq_true]
  constructor
  · rintro ⟨⟨k₁, l₁⟩, hm, hp⟩
    simp only [Bool.and_eq_true, beq_iff_eq] at hp
    rcases hp with ⟨hk, hi⟩
    subst hk
    exact ⟨l₁, hm, by simpa using hi⟩
  · rintro ⟨l, hm, hi⟩
    exact ⟨(k, l), hm, by simpa using hi⟩

lemma MentionsP_addToKey (k' : String) (i' : Nat) (k : String) (i : Nat) :
    ∀ (m : List (String × List Nat)),
      MentionsP (addToKey m k' i') k i ↔
        (MentionsP m k i ∨ (k = k' ∧ i = i')) := by
  intro m
  induction m with
  | nil =>
    constructor
    · rintro ⟨l, hm, hi⟩
      rcases List.mem_singleton.mp hm with heq
      have hk : k = k' := congrArg Prod.fst heq
      have hl : l = [i'] := congrArg Prod.snd heq
      subst hk
      subst hl
      exact Or.inr ⟨rfl, List.mem_singleton.mp hi⟩
    · rintro (⟨l, hm, _⟩ | ⟨rfl, rfl⟩)
      · exact absurd hm (List.not_mem_nil _)
      · exact ⟨[i], List.mem_singleton.mpr rfl, List.mem_singleton.mpr rfl⟩
  | cons q rest ih =>
    rcases q with ⟨k₀, l₀⟩
    rw [addToKey]
    by_cases h : k₀ = k'
    · subst h
      rw [if_pos rfl]
      constructor
      · rintro ⟨l, hm, hi⟩
        rcases List.mem_cons.mp hm with heq | hm2
        · have hk : k = k₀ := congrArg Prod.fst heq
          have hl : l = l₀ ++ [i'] := congrArg Prod.snd heq
          subst hk
          subst hl
          rcases List.mem_append.mp hi with hi0 | hi1
          · exact Or.inl ⟨l₀, List.mem_cons_self _ _, hi0⟩
          · exact Or.inr ⟨rfl, List.mem_singleton.mp hi1⟩
        · exact Or.inl ⟨l, List.mem_cons_of_mem _ hm2, hi⟩
      · rintro (⟨l, hm, hi⟩ | ⟨rfl, rfl⟩)
        · rcases List.mem_cons.mp hm with heq | hm2
          · have hk : k = k₀ := congrArg Prod.fst heq
            have hl : l = l₀ := congrArg Prod.snd heq
            rw [hl] at hi
            refine ⟨l₀ ++ [i'], ?_, List.mem_append_left _ hi⟩
            rw [hk]
            exact List.mem_cons_self _ _
          · exact ⟨l, List.mem_cons_of_mem _ hm2, hi⟩
        · exact ⟨l₀ ++ [i], List.mem_cons_self _ _,
            List.mem_append_right _ (List.mem_singleton.mpr rfl)⟩
    · rw [if_neg h]
      constructor
      · rintro ⟨l, hm, hi⟩
        rcases List.mem_cons.mp hm with heq | hm2
        · have hk : k = k₀ := congrArg Prod.fst heq
          have hl : l = l₀ := congrArg Prod.snd heq
          rw [hl] at hi
          left
          refine ⟨l₀, ?_, hi⟩
          rw [hk]
          exact List.mem_cons_self _ _
        · rcases ih.mp ⟨l, hm2, hi⟩ with ⟨l₂, hm₂, hi₂⟩ | hkk
          · exact Or.inl ⟨l₂, List.mem_cons_of_mem _ hm₂, hi₂⟩
          · exact Or.inr hkk
      · rintro (⟨l, hm, hi⟩ | hkk)
        · rcases List.mem_cons.mp hm with heq | hm2
          · have hk : k = k₀ := congrArg Prod.fst heq
            have hl : l = l₀ := congrArg Prod.snd heq
            rw [hl] at hi
            refine ⟨l₀, ?_, hi⟩
            rw [hk]
            exact List.mem_cons_self _ _
          · rcases ih.mpr (Or.inl ⟨l, hm2, hi⟩) with ⟨l₂, hm₂, hi₂⟩
            exact ⟨l₂, List.mem_cons_of_mem _ hm₂, hi₂⟩
        · rcases ih.mpr (Or.inr hkk) with ⟨l₂, hm₂, hi₂⟩
          exact ⟨l₂, List.mem_cons_of_mem _ hm₂, hi₂⟩

lemma MentionsP_mapCommentsAux (sheets : List Sheet)
    (cs : List TabComment) :
    ∀ (i0 : Nat) (m : List (String × List Nat)) (k : String) (i : Nat),
      MentionsP (mapCommentsAux sheets i0 cs m) k i ↔
        (MentionsP m k i ∨
          (i0 ≤ i ∧ (cs[i - i0]?.bind (targetKey sheets)) = some k)) := by
  induction cs with
  | nil =>
    intro i0 m k i
    rw [mapCommentsAux]
    simp
  | cons c cs2 ih =>
    intro i0 m k i
    rw [mapCommentsAux]
    rw [ih]
    rcases htk : targetKey sheets c with _ | k₁
    · simp only [htk]
      constructor
      · rintro (hm | ⟨hle, hbind⟩)
        · exact Or.inl hm
        · refine Or.inr ⟨by omega, ?_⟩
          have hgt : i - i0 = (i - (i0 + 1)) + 1 := by omega
          rw [hgt]
          simpa using hbind
      · rintro (hm | ⟨hle, hbind⟩)
        · exact Or.inl hm
        · by_cases hii : i = i0
          · subst hii
            rw [Nat.sub_self] at hbind
            simp [htk] at hbind
          · refine Or.inr ⟨by omega, ?_⟩
            have hgt : i - i0 = (i - (i0 + 1)) + 1 := by omega
            rw [hgt] at hbind
            simpa using hbind
    · simp only [htk]
      rw [MentionsP_addToKey]
      constructor
      · rintro ((hm | ⟨rfl, rfl⟩) | ⟨hle, hbind⟩)
        · exact Or.inl hm
        · refine Or.inr ⟨le_rfl, ?_⟩
          rw [Nat.sub_self]
          simp [htk]
        · refine Or.inr ⟨by omega, ?_⟩
          have hgt : i - i0 = (i - (i0 + 1)) + 1 := by omega
          rw [hgt]
          simpa using hbind
      · rintro (hm | ⟨hle, hbind⟩)
        · exact Or.inl (Or.inl hm)
        · by_cases hii : i = i0
          · subst hii
            rw [Nat.sub_self] at hbind
            simp [htk] at hbind
            exact Or.inl (Or.inr ⟨hbind.symm, rfl⟩)
          · refine Or.inr ⟨by omega, ?_⟩
            have hgt : i - i0 = (i - (i0 + 1)) + 1 := by omega
            rw [hgt] at hbind
            simpa using hbind

end Sheets

/-! ## Claim C4 -/

/-- C4, counterexample.  One sheet (uid 0, name `S`) with the single row
`["A", "B"]`.  A comment whose snippet is `"B"` is mapped by the code to
cell `(0, 1)` — found by the row-major scan over all cells of the sheet —
even though its anchor carries no cell; under the specification's reading
(anchor resolving to cell `(0, 0)`, whose value `"A"` does not match) the
comment would be recorded unanchored.  A comment whose snippet matches no
cell is simply absent from the mapping, not recorded unanchored. -/
theorem claim_C4_counterexample :
    Sheets.mapCommentsToCells
      [{ snippet := "B", anchor := Sheets.AnchorVal.range (some 0) }]
      [exC4sheet] = [("S:0:1", [0])] ∧
    Sheets.specTabularMap
      [{ snippet := "B", anchor := { uid := 0, row := 0, col := 0 } }]
      [exC4sheet] = [Sheets.SpecOutcome.unanchoredIn "S"] ∧
    Sheets.mapCommentsToCells
      [{ snippet := "Z", anchor := Sheets.AnchorVal.range (some 0) }]
      [exC4sheet] = [] ∧
    ([("S:0:1", [0])] : List (String × List Nat)) ≠ [] := by
  refine ⟨by decide, by decide, by decide, by decide⟩

/-- C4 (amended): for tabular documents the anchor resolves only to the
sheet (its `uid`); the comment's stripped snippet is compared against the
stripped stringified value of every cell of that sheet in row-major order,
and the comment is recorded at the first matching cell.  A comment with a
missing, malformed or unknown-sheet anchor, an empty stripped snippet, or
no matching cell in the sheet appears nowhere in the mapping (it is only
logged), rather than being recorded unanchored.  Formally: index `i` is
recorded under key `k` iff the `i`-th comment's `targetKey` — the
guard-and-scan logic of one loop iteration — yields `k`. -/
theorem claim_C4_amended (comments : List Sheets.TabComment)
    (sheets : List Sheets.Sheet) (k : String) (i : Nat) :
    Sheets.mentionsB (Sheets.mapCommentsToCells comments sheets) k i =
      true ↔
      comments[i]?.bind (Sheets.targetKey sheets) = some k := by
  rw [Sheets.mentionsB_iff, Sheets.mapCommentsToCells,
    Sheets.MentionsP_mapCommentsAux]
  simp [Sheets.MentionsP]

/-! ## Lemmas: slides asset extraction -/

namespace Slides

lemma downloadImage_content (fetch : Fetch) (url : String) (c : Nat) :
    (downloadImageFromURL fetch url c).content =
      (match fetch url with
       | some p => p.1
       | none => []) := by
  rcases h : fetch url with _ | p
  · simp [downloadImageFromURL, h]
  · rcases p with ⟨data, ct⟩
    simp [downloadImageFromURL, h]

lemma goodImg_eq_content (fetch : Fetch) (img : SlideImage) (u : String)
    (c : Nat) (hurl : img.url = some u) :
    goodImg fetch img =
      !(downloadImageFromURL fetch u c).content.isEmpty := by
  rcases h : fetch u with _ | p
  · simp [goodImg, hurl, h, downloadImageFromURL]
  · rcases p with ⟨data, ct⟩
    simp [goodImg, hurl, h, downloadImageFromURL]

lemma imagesLoop_spec (fetch : Fetch) (imgs : List SlideImage) :
    ∀ c : Nat,
      ((imagesLoop fetch imgs c).2.1).length =
        imgs.countP (goodImg fetch) ∧
      ∀ a ∈ (imagesLoop fetch imgs c).2.1, a.content ≠ [] := by
  induction imgs with
  | nil => intro c; simp [imagesLoop]
  | cons img rest ih =>
    intro c
    rcases hurl : img.url with _ | u
    · rw [imagesLoop, hurl]
      rw [List.countP_cons]
      have hg : goodImg fetch img = false := by simp [goodImg, hurl]
      rw [hg]
      simpa using ih c
    · rw [imagesLoop, hurl]
      simp only []
      by_cases he :
          (downloadImageFromURL fetch u c).content.isEmpty = true
      · rw [if_pos he]
        rw [List.countP_cons]
        rw [goodImg_eq_content fetch img u c hurl, he]
        simpa using ih c
      · rw [if_neg he]
        rw [List.countP_cons]
        rw [goodImg_eq_content fetch img u c hurl]
        rw [Bool.not_eq_true] at he
        rcases ih (c + 1) with ⟨ihl, iha⟩
        constructor
        · simp only [List.length_cons, ihl, he]
          simp
        · intro a ha
          rcases List.mem_cons.mp ha with rfl | ha2
          · intro hc
            rw [hc] at he
            simp at he
          · exact iha a ha2

lemma slideLoop_spec (fetch : Fetch) (slides : List SlideData) :
    ∀ c : Nat,
      ((slideLoop fetch slides c).2.1).length =
        goodImageCount fetch slides ∧
      ∀ a ∈ (slideLoop fetch slides c).2.1, a.content ≠ [] := by
  induction slides with
  | nil => intro c; simp [slideLoop, goodImageCount]
  | cons sl rest ih =>
    intro c
    rw [slideLoop]
    simp only []
    rcases imagesLoop_spec fetch sl.images c with ⟨hl, ha⟩
    rcases ih ((imagesLoop fetch sl.images c).2.2) with ⟨hl2, ha2⟩
    constructor
    · rw [List.length_append, hl, hl2]
      simp [goodImageCount]
    · intro a hmem
      rcases List.mem_append.mp hmem with h1 | h2
      · exact ha a h1
      · exact ha2 a h2

end Slides

/-! ## Claim C5 -/

/-- C5, counterexample.  One slide with one remote image whose fetch
fails.  `_download_image_from_url` does return an empty-content
placeholder asset, but `convert_slides_to_markdown` filters it out
(`if asset.content:`), so the returned asset list is empty — the
placeholder is not recorded in the returned asset list as claimed. -/
theorem claim_C5_counterexample :
    (Slides.convertSlidesToMarkdown exC5fetch [exC5slide] []).2 = [] ∧
    Slides.downloadImageFromURL exC5fetch "u" 1 =
      { name := "slide_image_001.png", content := [],
        anchor := "slide_image_001", mime_type := "image/png" } ∧
    (Slides.downloadImageFromURL exC5fetch "u" 1).content = [] ∧
    ([] : List Models.ExportedAsset).length ≠ 1 := by
  refine ⟨by decide, by decide, by decide, by decide⟩

/-- C5 (amended): each remote url is fetched independently and a fetch
failure for one asset does not abort extraction of the others; the
downloader produces an empty-content placeholder for a failed fetch, but
the converter records only assets with non-empty content, so a failed
fetch contributes no entry to the returned asset list: for every fetch
collaborator and slide list, the returned assets are exactly one per
`(slide, image)` entry whose fetch yields non-empty content, every
recorded asset has non-empty content, and extraction is a total function
(always returns; an all-failed run yields the empty asset list, not an
error). -/
theorem claim_C5_amended (fetch : Slides.Fetch)
    (slides : List Slides.SlideData) (comments : List GDocs.CommentDoc) :
    ((Slides.convertSlidesToMarkdown fetch slides comments).2).length =
      Slides.goodImageCount fetch slides ∧
    ∀ a ∈ (Slides.convertSlidesToMarkdown fetch slides comments).2,
      a.content ≠ [] := by
  by_cases he : slides.isEmpty = true
  · have hnil : slides = [] := List.isEmpty_iff.mp he
    subst hnil
    simp [Slides.convertSlidesToMarkdown, Slides.goodImageCount]
  · rw [Slides.convertSlidesToMarkdown, if_neg he]
    simp only []
    exact Slides.slideLoop_spec fetch slides 1

/-! ## Lemmas: batch aggregation -/

namespace Drive

lemma batch_fold_spec (env : BatchEnv) (op : String) (ids : List String) :
    ∀ acc : List ProcResult × List ProcResult × List ProcResult,
      (ids.foldl (fun acc id => routeResult acc (outcomeOf env op id))
        acc) =
        (acc.1 ++ (ids.map (outcomeOf env op)).filter ProcResult.isSuccess,
         acc.2.1 ++
           (ids.map (outcomeOf env op)).filter ProcResult.isFailure,
         acc.2.2 ++
           (ids.map (outcomeOf env op)).filter ProcResult.isSkipped) := by
  induction ids with
  | nil => intro acc; simp
  | cons id rest ih =>
    intro acc
    rw [List.foldl_cons, ih]
    rcases hr : outcomeOf env op id with ⟨i, n, t, p⟩ | ⟨i, n, er⟩ |
        ⟨i, n, re⟩ <;>
      simp [routeResult, hr, List.filter_cons, ProcResult.isSuccess,
        ProcResult.isFailure, ProcResult.isSkipped]

lemma procResult_partition (rs : List ProcResult) :
    (rs.filter ProcResult.isSuccess).length +
      (rs.filter ProcResult.isFailure).length +
      (rs.filter ProcResult.isSkipped).length = rs.length := by
  induction rs with
  | nil => rfl
  | cons r rest ih =>
    rcases r with ⟨i, n, t, p⟩ | ⟨i, n, er⟩ | ⟨i, n, re⟩ <;>
      simp [List.filter_cons, ProcResult.isSuccess, ProcResult.isFailure,
        ProcResult.isSkipped] <;>
      omega

end Drive

/-! ## Claim C6 -/

/-- C6: in `batch_export_by_ids`, every id yields exactly one result via
the worker wrapper (a fetch failure becomes a failure entry; otherwise
`_process_single_item` returns exactly one of success/failure/skipped),
and that result is appended to exactly the list matching its status: the
three lists are precisely the status-filtered per-id outcomes, so every
processed unit appears in exactly one list; `total_processed` is computed
as the sum of the three lengths and equals the number of ids.  On the
concrete five-id scenario (2 fetch failures, 1 directory, 2 clean
exports) this gives successes=2, failures=2, skipped=1,
total_processed=5.  The thread pool completes all submitted futures and
the claim is about aggregate contents, so the pool is modelled by the
sequential fold. -/
theorem claim_C6 (env : Drive.BatchEnv) (ids : List String)
    (op : String) :
    (Drive.batchExportByIds env ids op).successes =
      (ids.map (Drive.outcomeOf env op)).filter
        Drive.ProcResult.isSuccess ∧
    (Drive.batchExportByIds env ids op).failures =
      (ids.map (Drive.outcomeOf env op)).filter
        Drive.ProcResult.isFailure ∧
    (Drive.batchExportByIds env ids op).skipped =
      (ids.map (Drive.outcomeOf env op)).filter
        Drive.ProcResult.isSkipped ∧
    (Drive.batchExportByIds env ids op).total_processed =
      (Drive.batchExportByIds env ids op).successes.length +
        (Drive.batchExportByIds env ids op).failures.length +
        (Drive.batchExportByIds env ids op).skipped.length ∧
    (Drive.batchExportByIds env ids op).successes.length +
        (Drive.batchExportByIds env ids op).failures.length +
        (Drive.batchExportByIds env ids op).skipped.length =
      ids.length ∧
    (Drive.batchExportByIds exC6env exC6ids "out").successes.length = 2 ∧
    (Drive.batchExportByIds exC6env exC6ids "out").failures.length = 2 ∧
    (Drive.batchExportByIds exC6env exC6ids "out").skipped.length = 1 ∧
    (Drive.batchExportByIds exC6env exC6ids "out").total_processed = 5 := by
  have hb := Drive.batch_fold_spec env op ids ([], [], [])
  have hpart := Drive.procResult_partition (ids.map (Drive.outcomeOf env op))
  refine ⟨?_, ?_, ?_, ?_, ?_, by decide, by decide, by decide, by decide⟩
  · rw [Drive.batchExportByIds, hb]
    simp
  · rw [Drive.batchExportByIds, hb]
    simp
  · rw [Drive.batchExportByIds, hb]
    simp
  · rw [Drive.batchExportByIds, hb]
  · rw [Drive.batchExportByIds, hb]
    simpa using hpart

/-! ## Lemmas: folder traversal -/

namespace Drive

lemma collectFolderIds_spec {n : Nat} (children : Fin n → List (Fin n)) :
    ∀ (roots : List (Fin n)) (visited : Finset (Fin n)),
      ((collectFolderIds children roots visited).1).Nodup ∧
      (∀ x ∈ (collectFolderIds children roots visited).1, x ∉ visited) ∧
      (collectFolderIds children roots visited).2 =
        visited ∪ ((collectFolderIds children roots visited).1).toFinset := by
  intro roots visited
  induction roots, visited using collectFolderIds.induct children with
  | case1 visited => simp [collectFolderIds]
  | case2 f rest visited hf ih =>
    rw [collectFolderIds, if_pos hf]
    exact ih
  | case3 f rest visited hf pp ih1 ih2 =>
    rw [collectFolderIds, if_neg hf]
    simp only []
    obtain ⟨h1nodup, h1vis, h1set⟩ := ih1
    obtain ⟨h2nodup, h2vis, h2set⟩ := ih2
    refine ⟨?_, ?_, ?_⟩
    · rw [List.nodup_cons]
      constructor
      · intro hmem
        rcases List.mem_append.mp hmem with hA | hB
        · exact h1vis f hA (Finset.mem_insert_self f visited)
        · exact h2vis f hB
            (Finset.mem_union_right _ (Finset.mem_insert_self f visited))
      · rw [List.nodup_append]
        refine ⟨h1nodup, h2nodup, ?_⟩
        intro a haA haB
        apply h2vis a haB
        apply Finset.mem_union_left
        rw [h1set]
        exact Finset.mem_union_right _ (List.mem_toFinset.mpr haA)
    · intro x hx
      rcases List.mem_cons.mp hx with rfl | hx2
      · exact hf
      · rcases List.mem_append.mp hx2 with hA | hB
        · intro hxv
          exact h1vis x hA (Finset.mem_insert_of_mem hxv)
        · intro hxv
          exact h2vis x hB
            (Finset.mem_union_right _ (Finset.mem_insert_of_mem hxv))
    · rw [h2set, h1set]
      ext x
      simp only [Finset.mem_union, Finset.mem_insert, List.mem_toFinset,
        List.toFinset_cons, List.toFinset_append, List.mem_cons,
        List.mem_append]
      tauto

lemma collect_nil_eq (v : Finset (Fin 2)) :
    collectFolderIds GDriveKit.exC7children [] v = ([], v) := by
  rw [collectFolderIds]

lemma collect_zero_seen :
    collectFolderIds GDriveKit.exC7children [(0 : Fin 2)]
    (insert 1 (insert 0 ∅)) = ([], insert 1 (insert 0 ∅)) := by
  rw [collectFolderIds, if_pos (by decide), collect_nil_eq]

lemma collect_one_fresh :
    collectFolderIds GDriveKit.exC7children [(1 : Fin 2)]
    (insert 0 ∅) =
      ([1], insert 1 (insert 0 ∅) ∪ insert 1 (insert 0 ∅)) := by
  rw [collectFolderIds, if_neg (by decide)]
  rw [show GDriveKit.exC7children 1 = [0] from rfl]
  rw [collect_zero_seen]
  dsimp only
  rw [collect_nil_eq]
  rfl

end Drive

/-! ## Claim C7 -/

/-- C7: folder traversal with the shared visited-set terminates on every
finite folder graph — `collectFolderIds` is accepted by Lean's
termination checker, its measure being the number of unvisited folders —
and never yields a folder twice: the collected list is duplicate-free and
contains no folder already visited, even when a folder is directly or
transitively its own ancestor.  On the concrete cycle A → B → A the
traversal from A returns exactly `[A, B]`, visiting each folder once. -/
theorem claim_C7 :
    (∀ (n : Nat) (children : Fin n → List (Fin n))
      (roots : List (Fin n)) (visited : Finset (Fin n)),
        ((Drive.collectFolderIds children roots visited).1).Nodup ∧
        ∀ x ∈ (Drive.collectFolderIds children roots visited).1,
          x ∉ visited) ∧
    Drive.collectFolderIds exC7children [(0 : Fin 2)] ∅ =
      ([0, 1], {0, 1}) := by
  constructor
  · intro n children roots visited
    obtain ⟨h1, h2, -⟩ := Drive.collectFolderIds_spec children roots visited
    exact ⟨h1, h2⟩
  · rw [Drive.collectFolderIds, if_neg (by decide)]
    rw [show exC7children 0 = [1] from rfl]
    rw [Drive.collect_one_fresh]
    dsimp only
    rw [Drive.collect_nil_eq]
    refine Prod.ext rfl ?_
    decide

/-! ## Claim C9 -/

/-- C9: `get_comments` never raises; its whole body sits in a
`try/except` that returns the empty list on any failure.  If the
comment-fetch collaborator fails, the result is `[]`; and if the fetched
dictionaries cannot be formatted (missing keys, unparsable timestamps),
the result is also `[]` — an item export proceeds with zero comments
instead of surfacing the failure.  The model is a total function. -/
theorem claim_C9 (parseTime : String → Option String)
    (fetched : Except String (List Drive.RawComment)) (e : String)
    (raws : List Drive.RawComment)
    (hf : fetched = Except.error e)
    (hfmt : raws.mapM (Drive.formatComment parseTime) =
      Except.error ()) :
    Drive.getComments parseTime fetched = [] ∧
    Drive.getComments parseTime (Except.ok raws) = [] := by
  constructor
  · subst hf
    simp [Drive.getComments]
  · simp only [Drive.getComments]
    rw [hfmt]

/-- C9, witness: a transport failure and a malformed raw comment both
yield the empty comment list. -/
theorem claim_C9_witness :
    Drive.getComments (fun s => some s) (Except.error "network error")
      = [] ∧
    Drive.getComments (fun s => some s) (Except.ok [exC9raw]) = [] :=
  claim_C9 (fun s => some s) (Except.error "network error")
    "network error" [exC9raw] rfl rfl

end GDriveKit